import Mathlib

/-!
Verification of the SVG normalization engine (scripts/normalize_svg.py).

Modelling conventions:
* Python floats are idealized as exact decimal fractions: the type `Dec`
  holds an integer numerator `n` and a power-of-ten exponent `k`, denoting
  the rational number `n / 10 ^ k`.  Every arithmetic operation the engine
  performs (addition, subtraction, multiplication, halving, division by a
  power of ten) is closed over this representation, so the whole pipeline
  evaluates inside the kernel.  Equality and order of Python floats are
  numeric, hence modelled by cross-multiplied comparisons (`Dec.numEq`,
  `Dec.leB`), never by structural equality of representations.
* `math.sqrt`, `math.sin(math.radians _)`, `math.cos(math.radians _)`,
  `math.tan(math.radians _)` and `math.degrees(math.atan2 _ _)` are
  irrational-valued library calls; they enter the model as the fields of a
  `MathFns` bundle.  Theorems quantify over the bundle where the claim is
  independent of those values; concrete evaluations use `exactFns`, which
  agrees with the Python library functions on every input actually reached
  (perfect squares, axis-aligned angles).
* Python `xml.etree` elements become the mutual inductive `Elem`/`ElemList`;
  an attribute dict is an insertion-ordered association list (first
  occurrence is the binding, as in a dict without duplicate keys).
* Python code that can raise (`float(...)` on a malformed token) is
  modelled with `Option`: `none` is an exception propagating to `main`.
-/

/-- Exact decimal fraction `n / 10 ^ k`, the idealization of a Python float. -/
structure Dec where
  n : Int
  k : Nat
  deriving DecidableEq, Repr

/-- Embed an integer as a decimal fraction. -/
def Dec.ofInt (i : Int) : Dec := ⟨i, 0⟩

/-- Numeric value of a decimal fraction, used only in proofs. -/
def Dec.val (x : Dec) : ℚ := (x.n : ℚ) / 10 ^ x.k

/-- Addition of decimal fractions (common denominator `10 ^ (k₁ + k₂)`). -/
def Dec.add (x y : Dec) : Dec := ⟨x.n * 10 ^ y.k + y.n * 10 ^ x.k, x.k + y.k⟩

/-- Negation of a decimal fraction. -/
def Dec.neg (x : Dec) : Dec := ⟨-x.n, x.k⟩

/-- Subtraction of decimal fractions. -/
def Dec.sub (x y : Dec) : Dec := x.add y.neg

/-- Multiplication of decimal fractions. -/
def Dec.mul (x y : Dec) : Dec := ⟨x.n * y.n, x.k + y.k⟩

/-- Division by two (`x / 2 = 5 * x / 10`), exact on decimals. -/
def Dec.half (x : Dec) : Dec := ⟨5 * x.n, x.k + 1⟩

/-- Multiplication by `10 ^ j`. -/
def Dec.mulPow10 (x : Dec) (j : Nat) : Dec := ⟨x.n * 10 ^ j, x.k⟩

/-- Division by `10 ^ j`. -/
def Dec.divPow10 (x : Dec) (j : Nat) : Dec := ⟨x.n, x.k + j⟩

/-- Numeric equality of decimal fractions (Python `==` on floats). -/
def Dec.numEq (x y : Dec) : Prop := x.n * 10 ^ y.k = y.n * 10 ^ x.k

instance (x y : Dec) : Decidable (Dec.numEq x y) :=
  inferInstanceAs (Decidable (_ = _))

/-- Boolean numeric equality of decimal fractions. -/
def Dec.numEqB (x y : Dec) : Bool := decide (Dec.numEq x y)

/-- Boolean numeric less-or-equal on decimal fractions (Python `<=`). -/
def Dec.leB (x y : Dec) : Bool := decide (x.n * 10 ^ y.k ≤ y.n * 10 ^ x.k)

/-- Boolean numeric strict order on decimal fractions (Python `<`). -/
def Dec.ltB (x y : Dec) : Bool := decide (x.n * 10 ^ y.k < y.n * 10 ^ x.k)

/-- Nonnegativity test (Python `x >= 0`): the denominator is positive, so
the sign is the sign of the numerator. -/
def Dec.nonneg (x : Dec) : Bool := decide (0 ≤ x.n)

/-- Zero test (Python `x == 0`). -/
def Dec.isZero (x : Dec) : Bool := decide (x.n = 0)

/-- Decimal digit characters. -/
def digitChar (d : Nat) : Char :=
  match d with
  | 0 => '0' | 1 => '1' | 2 => '2' | 3 => '3' | 4 => '4'
  | 5 => '5' | 6 => '6' | 7 => '7' | 8 => '8' | _ => '9'

/-- Digit list of a natural number, most significant first; `fuel` bounds the
recursion and any `fuel > n` is enough (the number shrinks by a factor of ten
each step). -/
def natDigitsAux : Nat → Nat → List Char
  | 0, _ => []
  | fuel + 1, m => if m < 10 then [digitChar m] else natDigitsAux fuel (m / 10) ++ [digitChar (m % 10)]

/-- Decimal string of a natural number. -/
def natStr (m : Nat) : List Char := natDigitsAux (m + 1) m

/-- Decimal string of an integer. -/
def intStr (i : Int) : List Char :=
  if i < 0 then '-' :: natStr i.natAbs else natStr i.natAbs

/-- Left-pad a digit string with zeros up to width `w`. -/
def padZeros (w : Nat) (cs : List Char) : List Char :=
  List.replicate (w - cs.length) '0' ++ cs

/-- Fixed six-decimal formatting, the model of Python `f'\x7bv:.6f\x7d'` on the
exact value: round the value times `10 ^ 6` to the nearest integer, ties to
even (the rounding Python applies to the displayed digits). -/
def fmt6 (x : Dec) : List Char :=
  let numer : Int := x.n * 10 ^ 6
  let denom : Int := 10 ^ x.k
  let q : Int := Int.ediv numer denom
  let r : Int := numer - q * denom
  let rounded : Int :=
    if 2 * r < denom then q
    else if denom < 2 * r then q + 1
    else if q % 2 = 0 then q else q + 1
  let m : Nat := rounded.natAbs
  (if rounded < 0 then ['-'] else []) ++ natStr (m / 10 ^ 6) ++ '.' :: padZeros 6 (natStr (m % 10 ^ 6))

/-- Python whitespace (`str.split`, `str.strip`, regex `\s`). -/
def isWsChar (c : Char) : Bool :=
  c = ' ' ∨ c = '\t' ∨ c = '\n' ∨ c = '\r' ∨ c = '\x0b' ∨ c = '\x0c'

/-- Python `str.strip()`. -/
def trimWs (cs : List Char) : List Char :=
  ((cs.dropWhile isWsChar).reverse.dropWhile isWsChar).reverse

/-- Auxiliary scanner for `str.split()` with no argument: split on whitespace
runs, dropping empty pieces; `acc` is the current token, reversed. -/
def splitWsAux : List Char → List Char → List (List Char)
  | [], acc => if acc.isEmpty then [] else [acc.reverse]
  | c :: rest, acc =>
    if isWsChar c then
      if acc.isEmpty then splitWsAux rest [] else acc.reverse :: splitWsAux rest []
    else splitWsAux rest (c :: acc)

/-- Python `str.split()` (whitespace split). -/
def pySplitWs (cs : List Char) : List (List Char) := splitWsAux cs []

/-- Split on a single character, keeping empty pieces (Python `str.split(c)`). -/
def splitOnCharAux (sep : Char) : List Char → List Char → List (List Char)
  | [], acc => [acc.reverse]
  | c :: rest, acc =>
    if c = sep then acc.reverse :: splitOnCharAux sep rest []
    else splitOnCharAux sep rest (c :: acc)

/-- Python `str.split(sep)` for a one-character separator. -/
def splitOnChar (sep : Char) (cs : List Char) : List (List Char) := splitOnCharAux sep cs []

/-- Python `str.replace(old, new)` for one-character arguments. -/
def replaceChar (old new : Char) (cs : List Char) : List Char :=
  cs.map fun c => if c = old then new else c

/-- Join chunks with a single space (Python `' '.join`). -/
def joinSpace : List (List Char) → List Char
  | [] => []
  | [x] => x
  | x :: y :: rest => x ++ ' ' :: joinSpace (y :: rest)

/-- Membership of a character in a character list (regex character class). -/
def charIn (c : Char) (cs : List Char) : Bool := cs.contains c

/-- Mantissa characters of the numeric-token regex `-?[\d.]+(?:e[+-]?\d+)?`. -/
def isMantChar (c : Char) : Bool := c.isDigit ∨ c = '.'

/-- Attempt the numeric-token regex at the head of the input; on success
return the token and the remaining input. -/
def numTokenAt (allowExp : Bool) (cs : List Char) : Option (List Char × List Char) :=
  let (negPart, rest) :=
    match cs with
    | '-' :: r => (['-'], r)
    | _ => (([] : List Char), cs)
  let mant := rest.takeWhile isMantChar
  if mant.isEmpty then none
  else
    let afterMant := rest.drop mant.length
    let expPart : List Char :=
      if allowExp then
        match afterMant with
        | e :: r2 =>
          if e = 'e' ∨ e = 'E' then
            match r2 with
            | s :: r3 =>
              if s = '+' ∨ s = '-' then
                let ds := r3.takeWhile Char.isDigit
                if ds.isEmpty then [] else e :: s :: ds
              else
                let ds := r2.takeWhile Char.isDigit
                if ds.isEmpty then [] else e :: ds
            | [] => []
          else []
        | [] => []
      else []
    let tok := negPart ++ mant ++ expPart
    some (tok, cs.drop tok.length)

/-- Scanner for `re.findall(r'-?[\d.]+(?:e[+-]?\d+)?', s, re.IGNORECASE)` (with
`allowExp := false` it is the exponent-free pattern `-?[\d.]+` used for
`points` lists).  `fuel` bounds the scan; `fuel ≥ length` is always enough
because every step consumes at least one character. -/
def numTokensAux (allowExp : Bool) : Nat → List Char → List (List Char)
  | 0, _ => []
  | _ + 1, [] => []
  | fuel + 1, c :: rest =>
    match numTokenAt allowExp (c :: rest) with
    | some (tok, rem) => tok :: numTokensAux allowExp fuel rem
    | none => numTokensAux allowExp fuel rest

/-- All numeric tokens of a parameter string. -/
def pyNumTokens (cs : List Char) : List (List Char) :=
  numTokensAux true (cs.length + 1) cs

/-- All numeric tokens of a `points` string (no exponents, as in the source's
second, simpler regex). -/
def pyNumTokensNoExp (cs : List Char) : List (List Char) :=
  numTokensAux false (cs.length + 1) cs

/-- Digits-to-number accumulator. -/
def digitsToNat (cs : List Char) : Nat :=
  cs.foldl (fun acc c => acc * 10 + (c.toNat - '0'.toNat)) 0

/-- Model of Python `float(s)` on plain decimal literals: optional sign,
digits with at most one dot, optional exponent; surrounding whitespace is
stripped.  `none` models a raised `ValueError`.  (Python additionally accepts
`inf`, `nan` and underscore separators; no input of interest contains them.) -/
def pyFloat? (cs : List Char) : Option Dec :=
  let cs := trimWs cs
  let (sgn, rest) :=
    match cs with
    | '-' :: r => ((-1 : Int), r)
    | '+' :: r => ((1 : Int), r)
    | _ => ((1 : Int), cs)
  let mantChars := rest.takeWhile fun c => ¬ (c = 'e' ∨ c = 'E')
  let expChars := rest.drop mantChars.length
  let ip := mantChars.takeWhile fun c => c ≠ '.'
  let rest2 := mantChars.drop ip.length
  let fp? : Option (List Char) :=
    match rest2 with
    | [] => some []
    | _ :: fp => if fp.contains '.' then none else some fp
  match fp? with
  | none => none
  | some fp =>
    if ip.all Char.isDigit ∧ fp.all Char.isDigit ∧ ¬ (ip.isEmpty ∧ fp.isEmpty) then
      let mant : Dec := ⟨sgn * (digitsToNat (ip ++ fp) : Int), fp.length⟩
      match expChars with
      | [] => some mant
      | _ :: ec =>
        let (esgn, ed) :=
          match ec with
          | '-' :: r => ((-1 : Int), r)
          | '+' :: r => ((1 : Int), r)
          | _ => ((1 : Int), ec)
        if ed.all Char.isDigit ∧ ¬ ed.isEmpty then
          if esgn = 1 then some (mant.mulPow10 (digitsToNat ed))
          else some (mant.divPow10 (digitsToNat ed))
        else none
    else none

/-- Strip factors of ten shared by numerator and denominator exponent. -/
def decCanon : Nat → Int → Nat → Int × Nat
  | 0, nv, kv => (nv, kv)
  | fuel + 1, nv, kv =>
    if kv = 0 ∨ ¬ (nv % 10 = 0) then (nv, kv)
    else decCanon fuel (Int.ediv nv 10) (kv - 1)

/-- Model of Python `str(float)` as it appears in viewBox serialization:
exact decimal text with a trailing `.0` for integral values.  (Python prints
the shortest round-tripping representation; on the decimal values reaching
this function the two agree, and no claim depends on this text.) -/
def pyRepr (x : Dec) : List Char :=
  let (n1, k1) := decCanon x.k x.n x.k
  if k1 = 0 then intStr n1 ++ ['.', '0']
  else
    (if n1 < 0 then ['-'] else []) ++ natStr (n1.natAbs / 10 ^ k1) ++
      '.' :: padZeros k1 (natStr (n1.natAbs % 10 ^ k1))

/-- Bundle of the irrational-valued `math` library calls used by the engine.
`sqrt` models `math.sqrt`; `sinDeg x` models `math.sin(math.radians x)` and
similarly `cosDeg`, `tanDeg`; `atan2Deg y x` models
`math.degrees(math.atan2(y, x))`. -/
structure MathFns where
  sqrt : Dec → Dec
  sinDeg : Dec → Dec
  cosDeg : Dec → Dec
  tanDeg : Dec → Dec
  atan2Deg : Dec → Dec → Dec

/-- Linear search for an exact integer square root (zero when none exists);
executable inside the kernel for the small concrete inputs of the witnesses. -/
def findSq : Nat → Nat → Nat
  | 0, t => if t = 0 then 0 else 0
  | s + 1, t => if (s + 1) * (s + 1) = t then s + 1 else findSq s t

/-- Concrete bundle agreeing with the Python library functions on every input
the witnesses reach: perfect-square radicands, angles that are multiples of
90 degrees, and axis-aligned `atan2` arguments. -/
def exactFns : MathFns where
  sqrt := fun x =>
    let t := (x.n * 10 ^ x.k).natAbs
    ⟨(findSq t t : Int), x.k⟩
  sinDeg := fun x =>
    if x.numEqB (Dec.ofInt 0) then Dec.ofInt 0
    else if x.numEqB (Dec.ofInt 90) then Dec.ofInt 1
    else if x.numEqB (Dec.ofInt 180) then Dec.ofInt 0
    else if x.numEqB (Dec.ofInt 270) then Dec.ofInt (-1)
    else Dec.ofInt 0
  cosDeg := fun x =>
    if x.numEqB (Dec.ofInt 0) then Dec.ofInt 1
    else if x.numEqB (Dec.ofInt 90) then Dec.ofInt 0
    else if x.numEqB (Dec.ofInt 180) then Dec.ofInt (-1)
    else if x.numEqB (Dec.ofInt 270) then Dec.ofInt 0
    else Dec.ofInt 0
  tanDeg := fun x =>
    if x.numEqB (Dec.ofInt 0) then Dec.ofInt 0 else Dec.ofInt 0
  atan2Deg := fun y x =>
    if decide (0 < x.n) ∧ y.isZero then Dec.ofInt 0
    else if x.isZero ∧ decide (0 < y.n) then Dec.ofInt 90
    else if decide (x.n < 0) ∧ y.isZero then Dec.ofInt 180
    else if x.isZero ∧ decide (y.n < 0) then Dec.ofInt (-90)
    else Dec.ofInt 0

/-- Affine matrix `[a, b, c, d, e, f]` of `normalize_svg.py`, representing
the map `(x, y) ↦ (a x + c y + e, b x + d y + f)`. -/
structure SvgMatrix where
  a : Dec
  b : Dec
  c : Dec
  d : Dec
  e : Dec
  f : Dec
  deriving DecidableEq, Repr

/-- Source `identity_matrix()`: `[1, 0, 0, 1, 0, 0]`. -/
def identity_matrix : SvgMatrix :=
  ⟨Dec.ofInt 1, Dec.ofInt 0, Dec.ofInt 0, Dec.ofInt 1, Dec.ofInt 0, Dec.ofInt 0⟩

/-- Source `multiply_matrices(m1, m2)`: the matrix product with `m2` applied
first, then `m1`. -/
def multiply_matrices (m1 m2 : SvgMatrix) : SvgMatrix :=
  ⟨(m1.a.mul m2.a).add (m1.c.mul m2.b),
   (m1.b.mul m2.a).add (m1.d.mul m2.b),
   (m1.a.mul m2.c).add (m1.c.mul m2.d),
   (m1.b.mul m2.c).add (m1.d.mul m2.d),
   ((m1.a.mul m2.e).add (m1.c.mul m2.f)).add m1.e,
   ((m1.b.mul m2.e).add (m1.d.mul m2.f)).add m1.f⟩

/-- Source `transform_point(x, y, matrix)`. -/
def transform_point (x y : Dec) (m : SvgMatrix) : Dec × Dec :=
  (((m.a.mul x).add (m.c.mul y)).add m.e,
   ((m.b.mul x).add (m.d.mul y)).add m.f)

/-- Source `get_matrix_scale(matrix)`: the extracted approximate scale factors
`(sqrt (a² + b²), sqrt (c² + d²))`. -/
def get_matrix_scale (fns : MathFns) (m : SvgMatrix) : Dec × Dec :=
  (fns.sqrt ((m.a.mul m.a).add (m.b.mul m.b)),
   fns.sqrt ((m.c.mul m.c).add (m.d.mul m.d)))

/-- Numeric equality of matrices (Python `==` on the six-entry float lists),
in particular the `matrix == [1, 0, 0, 1, 0, 0]` identity test. -/
def isIdentityM (m : SvgMatrix) : Bool :=
  m.a.numEqB (Dec.ofInt 1) ∧ m.b.numEqB (Dec.ofInt 0) ∧ m.c.numEqB (Dec.ofInt 0) ∧
    m.d.numEqB (Dec.ofInt 1) ∧ m.e.numEqB (Dec.ofInt 0) ∧ m.f.numEqB (Dec.ofInt 0)

/-- Pointwise numeric equality of matrices. -/
def SvgMatrix.numEq (m1 m2 : SvgMatrix) : Prop :=
  m1.a.numEq m2.a ∧ m1.b.numEq m2.b ∧ m1.c.numEq m2.c ∧
    m1.d.numEq m2.d ∧ m1.e.numEq m2.e ∧ m1.f.numEq m2.f

instance (m1 m2 : SvgMatrix) : Decidable (SvgMatrix.numEq m1 m2) :=
  inferInstanceAs (Decidable (_ ∧ _))

/-- Case-insensitive match of a literal keyword at the head of the input,
returning the remaining input. -/
def matchKeyword : List Char → List Char → Option (List Char)
  | [], rest => some rest
  | _ :: _, [] => none
  | kc :: kr, c :: cr => if c.toLower = kc.toLower then matchKeyword kr cr else none

/-- Transform-function names recognized by the source regex, in alternation
order: `translate|scale|rotate|skewX|skewY|matrix`. -/
def tfKeywords : List (List Char) :=
  [['t','r','a','n','s','l','a','t','e'], ['s','c','a','l','e'], ['r','o','t','a','t','e'],
   ['s','k','e','w','X'], ['s','k','e','w','Y'], ['m','a','t','r','i','x']]

/-- Attempt `(translate|scale|rotate|skewX|skewY|matrix)\s*\(([^)]+)\)` at the
head of the input (case-insensitive); on success return the lowercased name,
the parenthesized body and the remaining input. -/
def tfFuncAt (cs : List Char) : Option ((List Char × List Char) × List Char) :=
  (tfKeywords.filterMap fun kw =>
    match matchKeyword kw cs with
    | none => none
    | some rest =>
      let rest2 := rest.dropWhile isWsChar
      match rest2 with
      | '(' :: body =>
        let inner := body.takeWhile fun c => c ≠ ')'
        if inner.isEmpty then none
        else
          match body.drop inner.length with
          | ')' :: rem => some ((kw.map Char.toLower, inner), rem)
          | _ => none
      | _ => none).head?

/-- Scanner for `re.findall` of the transform-function pattern: leftmost,
non-overlapping matches; a failed attempt advances one character. -/
def tfFuncsAux : Nat → List Char → List (List Char × List Char)
  | 0, _ => []
  | _ + 1, [] => []
  | fuel + 1, c :: rest =>
    match tfFuncAt (c :: rest) with
    | some (m, rem) => m :: tfFuncsAux fuel rem
    | none => tfFuncsAux fuel rest

/-- All transform-function matches of a transform attribute string. -/
def tfFuncs (cs : List Char) : List (List Char × List Char) :=
  tfFuncsAux (cs.length + 1) cs

/-- Recognized path command letters (either case), the tokenizer's character
class `[MLHVCSQTAZ]` under `re.IGNORECASE`. -/
def isPathCmdChar (c : Char) : Bool :=
  charIn c.toUpper ['M', 'L', 'H', 'V', 'C', 'S', 'Q', 'T', 'A', 'Z']

/-- Scanner for `re.findall(r'([MLHVCSQTAZ])([^MLHVCSQTAZ]*)', d, re.IGNORECASE)`:
each match is a recognized command letter together with the run of following
characters up to the next recognized letter.  Characters before the first
recognized letter never appear in any match. -/
def pathTokensAux : Nat → List Char → List (Char × List Char)
  | 0, _ => []
  | _ + 1, [] => []
  | fuel + 1, c :: rest =>
    if isPathCmdChar c then
      (c, rest.takeWhile fun x => ¬ isPathCmdChar x) ::
        pathTokensAux fuel (rest.dropWhile fun x => ¬ isPathCmdChar x)
    else pathTokensAux fuel rest

/-- All command tokens of a path `d` string. -/
def pathTokens (cs : List Char) : List (Char × List Char) :=
  pathTokensAux (cs.length + 1) cs

/-- Split a list into consecutive pairs, dropping a trailing element
(`for i in range(0, len(nums) - 1, 2)`). -/
def chunk2 : List Dec → List (Dec × Dec)
  | x :: y :: rest => (x, y) :: chunk2 rest
  | _ => []

/-- Split a list into consecutive quadruples, dropping a short tail
(`for i in range(0, len(nums) - 3, 4)`). -/
def chunk4 : List Dec → List (Dec × Dec × Dec × Dec)
  | a :: b :: c :: d :: rest => (a, b, c, d) :: chunk4 rest
  | _ => []

/-- Split a list into consecutive sextuples, dropping a short tail
(`for i in range(0, len(nums) - 5, 6)`). -/
def chunk6 : List Dec → List (Dec × Dec × Dec × Dec × Dec × Dec)
  | a :: b :: c :: d :: e :: f :: rest => (a, b, c, d, e, f) :: chunk6 rest
  | _ => []

/-- Split a list into consecutive septuples, dropping a short tail
(`for i in range(0, len(nums) - 6, 7)`). -/
def chunk7 : List Dec → List (Dec × Dec × Dec × Dec × Dec × Dec × Dec)
  | a :: b :: c :: d :: e :: f :: g :: rest => (a, b, c, d, e, f, g) :: chunk7 rest
  | _ => []

/-- One `M`/`L`/`T` coordinate pair of `transform_path_d`: a relative pair is
shifted by the current point, the absolute pre-transform pair becomes the new
current point, and the transformed pair is emitted. -/
def pairStep (m : SvgMatrix) (isRel : Bool) (cur : Dec × Dec) (p : Dec × Dec) :
    (Dec × Dec) × List Dec :=
  let x := if isRel then p.1.add cur.1 else p.1
  let y := if isRel then p.2.add cur.2 else p.2
  let t := transform_point x y m
  ((x, y), [t.1, t.2])

/-- Fold a per-chunk step over a chunk list, threading the current point and
concatenating emitted numbers (the body of each `for` loop in
`transform_path_d`). -/
def foldChunks {α : Type} (step : (Dec × Dec) → α → (Dec × Dec) × List Dec) :
    (Dec × Dec) → List α → (Dec × Dec) × List Dec
  | cur, [] => (cur, [])
  | cur, ch :: rest =>
    let (cur1, out1) := step cur ch
    let (cur2, out2) := foldChunks step cur1 rest
    (cur2, out1 ++ out2)

/-- One `A` (elliptical arc) septuple of `transform_path_d`: the endpoint is
transformed as an ordinary point, the radii are scaled by the extracted scale
factors, the x-axis rotation grows by the matrix rotation angle
`atan2(b, a)` in degrees, the sweep flag is flipped when the determinant
`a d - b c` is negative, and the large-arc flag passes through. -/
def arcStep (fns : MathFns) (m : SvgMatrix) (isRel : Bool) (cur : Dec × Dec)
    (ch : Dec × Dec × Dec × Dec × Dec × Dec × Dec) : (Dec × Dec) × List Dec :=
  let (rx, ry, rotation, largeArc, sweep, x0, y0) := ch
  let x := if isRel then x0.add cur.1 else x0
  let y := if isRel then y0.add cur.2 else y0
  let t := transform_point x y m
  let sc := get_matrix_scale fns m
  let newRx := rx.mul sc.1
  let newRy := ry.mul sc.2
  let matrixRotation := fns.atan2Deg m.b m.a
  let newRotation := rotation.add matrixRotation
  let det := (m.a.mul m.d).sub (m.b.mul m.c)
  let newSweep := if det.nonneg then sweep else (Dec.ofInt 1).sub sweep
  ((x, y), [newRx, newRy, newRotation, largeArc, newSweep, t.1, t.2])

/-- One `H` coordinate of `transform_path_d` (only the x of the current point
advances). -/
def hStep (m : SvgMatrix) (isRel : Bool) (cur : Dec × Dec) (x0 : Dec) :
    (Dec × Dec) × List Dec :=
  let x := if isRel then x0.add cur.1 else x0
  let y := cur.2
  let t := transform_point x y m
  ((x, cur.2), [t.1, t.2])

/-- One `V` coordinate of `transform_path_d` (only the y of the current point
advances). -/
def vStep (m : SvgMatrix) (isRel : Bool) (cur : Dec × Dec) (y0 : Dec) :
    (Dec × Dec) × List Dec :=
  let y := if isRel then y0.add cur.2 else y0
  let x := cur.1
  let t := transform_point x y m
  ((cur.1, y), [t.1, t.2])

/-- One `C` sextuple of `transform_path_d`: three control pairs transformed
alike, current point moving to the pre-transform endpoint. -/
def cStep (m : SvgMatrix) (isRel : Bool) (cur : Dec × Dec)
    (ch : Dec × Dec × Dec × Dec × Dec × Dec) : (Dec × Dec) × List Dec :=
  let (x1, y1, x2, y2, x0, y0) := ch
  let x1 := if isRel then x1.add cur.1 else x1
  let y1 := if isRel then y1.add cur.2 else y1
  let x2 := if isRel then x2.add cur.1 else x2
  let y2 := if isRel then y2.add cur.2 else y2
  let x := if isRel then x0.add cur.1 else x0
  let y := if isRel then y0.add cur.2 else y0
  let t1 := transform_point x1 y1 m
  let t2 := transform_point x2 y2 m
  let t := transform_point x y m
  ((x, y), [t1.1, t1.2, t2.1, t2.2, t.1, t.2])

/-- One `S`/`Q` quadruple of `transform_path_d`: two pairs transformed alike,
current point moving to the pre-transform endpoint. -/
def sqStep (m : SvgMatrix) (isRel : Bool) (cur : Dec × Dec)
    (ch : Dec × Dec × Dec × Dec) : (Dec × Dec) × List Dec :=
  let (xc, yc, x0, y0) := ch
  let xc := if isRel then xc.add cur.1 else xc
  let yc := if isRel then yc.add cur.2 else yc
  let x := if isRel then x0.add cur.1 else x0
  let y := if isRel then y0.add cur.2 else y0
  let tc := transform_point xc yc m
  let t := transform_point x y m
  ((x, y), [tc.1, tc.2, t.1, t.2])

/-- Loop body of `transform_path_d` for one `(command, params)` token: returns
the updated current point and the emitted output segment; `none` models a
`ValueError` from `float(...)` on a malformed numeric token. -/
def cmdStep (fns : MathFns) (m : SvgMatrix) (cur : Dec × Dec) (cmd : Char)
    (params : List Char) : Option ((Dec × Dec) × List Char) :=
  let cmdUpper := cmd.toUpper
  let isRel := cmd.isLower ∧ cmdUpper ≠ 'Z'
  let paramsStr := trimWs params
  if paramsStr.isEmpty ∨ cmdUpper = 'Z' then
    some (cur, [if isRel then cmd else cmdUpper])
  else
    match (pyNumTokens paramsStr).mapM pyFloat? with
    | none => none
    | some nums =>
      if cmdUpper = 'M' ∨ cmdUpper = 'L' ∨ cmdUpper = 'T' then
        let (cur1, out) := foldChunks (pairStep m isRel) cur (chunk2 nums)
        some (cur1, cmdUpper :: joinSpace (out.map fmt6))
      else if cmdUpper = 'H' then
        let (cur1, out) := foldChunks (hStep m isRel) cur nums
        some (cur1, 'L' :: joinSpace (out.map fmt6))
      else if cmdUpper = 'V' then
        let (cur1, out) := foldChunks (vStep m isRel) cur nums
        some (cur1, 'L' :: joinSpace (out.map fmt6))
      else if cmdUpper = 'C' then
        let (cur1, out) := foldChunks (cStep m isRel) cur (chunk6 nums)
        some (cur1, 'C' :: joinSpace (out.map fmt6))
      else if cmdUpper = 'S' then
        let (cur1, out) := foldChunks (sqStep m isRel) cur (chunk4 nums)
        some (cur1, 'S' :: joinSpace (out.map fmt6))
      else if cmdUpper = 'Q' then
        let (cur1, out) := foldChunks (sqStep m isRel) cur (chunk4 nums)
        some (cur1, 'Q' :: joinSpace (out.map fmt6))
      else if cmdUpper = 'A' then
        let (cur1, out) := foldChunks (arcStep fns m isRel) cur (chunk7 nums)
        some (cur1, 'A' :: joinSpace (out.map fmt6))
      else
        some (cur, cmd :: params)

/-- Fold of `cmdStep` over the token list, collecting output segments. -/
def cmdSteps (fns : MathFns) (m : SvgMatrix) :
    (Dec × Dec) → List (Char × List Char) → Option (List (List Char))
  | _, [] => some []
  | cur, (cmd, params) :: rest =>
    match cmdStep fns m cur cmd params with
    | none => none
    | some (cur1, seg) =>
      match cmdSteps fns m cur1 rest with
      | none => none
      | some segs => some (seg :: segs)

/-- Source `transform_path_d(d, matrix)`: retokenize the path grammar, track
the current point from `(0, 0)`, rewrite every recognized command under the
matrix and join the segments with single spaces. -/
def transform_path_d (fns : MathFns) (d : List Char) (m : SvgMatrix) :
    Option (List Char) :=
  if d.isEmpty then some d
  else
    match cmdSteps fns m (Dec.ofInt 0, Dec.ofInt 0) (pathTokens d) with
    | none => none
    | some segs => some (joinSpace segs)

/-- Source `transform_points(points_str, matrix)` for polygon/polyline:
transform each coordinate pair and emit `x,y` chunks joined by spaces. -/
def transform_points (points : List Char) (m : SvgMatrix) : Option (List Char) :=
  if points.isEmpty then some points
  else
    match (pyNumTokensNoExp points).mapM pyFloat? with
    | none => none
    | some nums =>
      let pairs := chunk2 nums
      some (joinSpace (pairs.map fun p =>
        let t := transform_point p.1 p.2 m
        fmt6 t.1 ++ ',' :: fmt6 t.2))

/-- Build the primitive matrix of one matched transform function from its
parsed parameters (the `if/elif` chain of `parse_transform_string`). -/
def tfPrimitive (fns : MathFns) (name : String) (nums : List Dec) : SvgMatrix :=
  let getN := fun (i : Nat) (dflt : Dec) => nums.getD i dflt
  if name = "translate" then
    let tx := getN 0 (Dec.ofInt 0)
    let ty := getN 1 (Dec.ofInt 0)
    ⟨Dec.ofInt 1, Dec.ofInt 0, Dec.ofInt 0, Dec.ofInt 1, tx, ty⟩
  else if name = "scale" then
    let sx := getN 0 (Dec.ofInt 1)
    let sy := getN 1 sx
    ⟨sx, Dec.ofInt 0, Dec.ofInt 0, sy, Dec.ofInt 0, Dec.ofInt 0⟩
  else if name = "rotate" then
    let angle := getN 0 (Dec.ofInt 0)
    let cosA := fns.cosDeg angle
    let sinA := fns.sinDeg angle
    if nums.length ≥ 3 then
      let cx := getN 1 (Dec.ofInt 0)
      let cy := getN 2 (Dec.ofInt 0)
      ⟨cosA, sinA, sinA.neg, cosA,
       (cx.sub (cosA.mul cx)).add (sinA.mul cy),
       (cy.sub (sinA.mul cx)).sub (cosA.mul cy)⟩
    else
      ⟨cosA, sinA, sinA.neg, cosA, Dec.ofInt 0, Dec.ofInt 0⟩
  else if name = "skewx" then
    let angle := getN 0 (Dec.ofInt 0)
    ⟨Dec.ofInt 1, Dec.ofInt 0, fns.tanDeg angle, Dec.ofInt 1, Dec.ofInt 0, Dec.ofInt 0⟩
  else if name = "skewy" then
    let angle := getN 0 (Dec.ofInt 0)
    ⟨Dec.ofInt 1, fns.tanDeg angle, Dec.ofInt 0, Dec.ofInt 1, Dec.ofInt 0, Dec.ofInt 0⟩
  else
    if nums.length ≥ 6 then
      ⟨nums.getD 0 (Dec.ofInt 0), nums.getD 1 (Dec.ofInt 0), nums.getD 2 (Dec.ofInt 0),
       nums.getD 3 (Dec.ofInt 0), nums.getD 4 (Dec.ofInt 0), nums.getD 5 (Dec.ofInt 0)⟩
    else identity_matrix

/-- Fold of the matched transform functions: each primitive is composed onto
the running result as `result × m`. -/
def tfFold (fns : MathFns) : SvgMatrix → List (List Char × List Char) → Option SvgMatrix
  | acc, [] => some acc
  | acc, (name, body) :: rest =>
    match (pyNumTokens body).mapM pyFloat? with
    | none => none
    | some nums => tfFold fns (multiply_matrices acc (tfPrimitive fns (String.mk name) nums)) rest

/-- Source `parse_transform_string(transform_str)`: parse a transform
attribute into one composed matrix; an empty string yields the identity;
`none` models a `ValueError` from `float(...)`. -/
def parse_transform_string (fns : MathFns) (ts : List Char) : Option SvgMatrix :=
  if ts.isEmpty then some identity_matrix
  else tfFold fns identity_matrix (tfFuncs ts)

mutual
/-- An XML element: tag, insertion-ordered attribute list, leading text,
children.  Mutual with `ElemList` so that all recursions are structural and
kernel-reducible. -/
inductive Elem where
  | mk (tag : String) (attrs : List (String × String)) (text : Option String) (children : ElemList)
/-- A spine of sibling elements. -/
inductive ElemList where
  | nil
  | cons (e : Elem) (es : ElemList)
end

/-- Tag of an element. -/
def Elem.tag : Elem → String
  | .mk t _ _ _ => t

/-- Attribute list of an element. -/
def Elem.attrs : Elem → List (String × String)
  | .mk _ a _ _ => a

/-- Leading text of an element. -/
def Elem.text : Elem → Option String
  | .mk _ _ tx _ => tx

/-- Children of an element. -/
def Elem.children : Elem → ElemList
  | .mk _ _ _ cs => cs

/-- Replace the children of an element. -/
def Elem.withChildren : Elem → ElemList → Elem
  | .mk t a tx _, cs => .mk t a tx cs

/-- Convert the child spine to a `List`. -/
def ElemList.toList : ElemList → List Elem
  | .nil => []
  | .cons e es => e :: es.toList

/-- Convert a `List` of elements to a child spine. -/
def ElemList.ofList : List Elem → ElemList
  | [] => .nil
  | e :: es => .cons e (ElemList.ofList es)

/-- Children of an element as a `List`. -/
def Elem.childList (e : Elem) : List Elem := e.children.toList

/-- Dict lookup (`elem.get(key)`): the first binding of the key. -/
def attrGet : List (String × String) → String → Option String
  | [], _ => none
  | (k0, v0) :: rest, key => if k0 = key then some v0 else attrGet rest key

/-- Dict update (`elem.set(key, value)`): replace the first binding in place,
else append. -/
def attrSet : List (String × String) → String → String → List (String × String)
  | [], key, v => [(key, v)]
  | (k0, v0) :: rest, key, v =>
    if k0 = key then (key, v) :: rest else (k0, v0) :: attrSet rest key v

/-- Dict deletion (`del elem.attrib[key]`): drop the binding of the key.
(An XML attribute dict never holds a key twice, so removing every binding of
the key coincides with removing its unique binding.) -/
def attrDel : List (String × String) → String → List (String × String)
  | [], _ => []
  | (k0, v0) :: rest, key =>
    if k0 = key then attrDel rest key else (k0, v0) :: attrDel rest key

/-- Truthiness of an optional string (Python `if value:`). -/
def pyTruthy : Option String → Bool
  | some s => ¬ s.data.isEmpty
  | none => false

/-- Attribute lookup on an element. -/
def Elem.getA (e : Elem) (key : String) : Option String := attrGet e.attrs key

/-- Attribute update on an element. -/
def Elem.setA : Elem → String → String → Elem
  | .mk t a tx cs, key, v => .mk t (attrSet a key v) tx cs

/-- Attribute deletion on an element. -/
def Elem.delA : Elem → String → Elem
  | .mk t a tx cs, key => .mk t (attrDel a key) tx cs

/-- The guarded deletion idiom `if elem.get(k): del elem.attrib[k]`: the
attribute is removed only when present and non-empty. -/
def delTruthy (e : Elem) (key : String) : Elem :=
  if pyTruthy (e.getA key) then e.delA key else e

/-- The style-application idiom `if value: elem.set(key, value)` of
`extract_leaves`: a truthy resolved value is written onto the element. -/
def applyStyle (e : Elem) (key : String) : Option String → Elem
  | some v => if v.data.isEmpty then e else e.setA key v
  | none => e

/-- Local part of a namespaced tag:
`elem.tag.split('\x7d')[-1] if '\x7d' in elem.tag else elem.tag`. -/
def localTag (t : String) : String :=
  String.mk ((t.data.reverse.takeWhile fun c => c ≠ '\x7d').reverse)

/-- Binary numeric minimum (Python `min` keeps the earlier element on ties). -/
def decMin (x y : Dec) : Dec := if y.ltB x then y else x

/-- Binary numeric maximum (Python `max` keeps the earlier element on ties). -/
def decMax (x y : Dec) : Dec := if x.ltB y then y else x

/-- Stroke-width adjustment of `apply_matrix_to_element`: a truthy
`stroke-width` that parses as a float is multiplied by the average of the two
extracted scale factors; a `ValueError` keeps the original value. -/
def strokeWidthScale (fns : MathFns) (m : SvgMatrix) (e : Elem) : Elem :=
  match e.getA "stroke-width" with
  | some sws =>
    if sws.data.isEmpty then e
    else
      match pyFloat? sws.data with
      | some sw =>
        let sc := get_matrix_scale fns m
        let avgScale := (sc.1.add sc.2).half
        e.setA "stroke-width" (String.mk (fmt6 (sw.mul avgScale)))
      | none => e
  | none => e

/-- Tag dispatch of `apply_matrix_to_element`: rewrite the geometry-bearing
attributes of the element under the matrix. -/
def geomApply (fns : MathFns) (m : SvgMatrix) (tag : String) (e : Elem) : Option Elem :=
  if tag = "path" then
    match e.getA "d" with
    | some d =>
      if d.data.isEmpty then some e
      else
        match transform_path_d fns d.data m with
        | none => none
        | some d1 => some (e.setA "d" (String.mk d1))
    | none => some e
  else if tag = "polygon" ∨ tag = "polyline" then
    match e.getA "points" with
    | some pts =>
      if pts.data.isEmpty then some e
      else
        match transform_points pts.data m with
        | none => none
        | some p1 => some (e.setA "points" (String.mk p1))
    | none => some e
  else if tag = "rect" then
    match pyFloat? ((e.getA "x").getD "0").data, pyFloat? ((e.getA "y").getD "0").data,
        pyFloat? ((e.getA "width").getD "0").data, pyFloat? ((e.getA "height").getD "0").data with
    | some x, some y, some w, some h =>
      let c1 := transform_point x y m
      let c2 := transform_point (x.add w) y m
      let c3 := transform_point (x.add w) (y.add h) m
      let c4 := transform_point x (y.add h) m
      let newX := decMin c1.1 (decMin c2.1 (decMin c3.1 c4.1))
      let newY := decMin c1.2 (decMin c2.2 (decMin c3.2 c4.2))
      let maxX := decMax c1.1 (decMax c2.1 (decMax c3.1 c4.1))
      let maxY := decMax c1.2 (decMax c2.2 (decMax c3.2 c4.2))
      some ((((e.setA "x" (String.mk (fmt6 newX))).setA "y" (String.mk (fmt6 newY))).setA
        "width" (String.mk (fmt6 (maxX.sub newX)))).setA "height" (String.mk (fmt6 (maxY.sub newY))))
    | _, _, _, _ => none
  else if tag = "circle" then
    match pyFloat? ((e.getA "cx").getD "0").data, pyFloat? ((e.getA "cy").getD "0").data,
        pyFloat? ((e.getA "r").getD "0").data with
    | some cx, some cy, some r =>
      let t := transform_point cx cy m
      let sc := get_matrix_scale fns m
      let avgScale := (sc.1.add sc.2).half
      some (((e.setA "cx" (String.mk (fmt6 t.1))).setA "cy" (String.mk (fmt6 t.2))).setA
        "r" (String.mk (fmt6 (r.mul avgScale))))
    | _, _, _ => none
  else if tag = "ellipse" then
    match pyFloat? ((e.getA "cx").getD "0").data, pyFloat? ((e.getA "cy").getD "0").data,
        pyFloat? ((e.getA "rx").getD "0").data, pyFloat? ((e.getA "ry").getD "0").data with
    | some cx, some cy, some rx, some ry =>
      let t := transform_point cx cy m
      let sc := get_matrix_scale fns m
      some ((((e.setA "cx" (String.mk (fmt6 t.1))).setA "cy" (String.mk (fmt6 t.2))).setA
        "rx" (String.mk (fmt6 (rx.mul sc.1)))).setA "ry" (String.mk (fmt6 (ry.mul sc.2))))
    | _, _, _, _ => none
  else if tag = "line" then
    match pyFloat? ((e.getA "x1").getD "0").data, pyFloat? ((e.getA "y1").getD "0").data,
        pyFloat? ((e.getA "x2").getD "0").data, pyFloat? ((e.getA "y2").getD "0").data with
    | some x1, some y1, some x2, some y2 =>
      let t1 := transform_point x1 y1 m
      let t2 := transform_point x2 y2 m
      some ((((e.setA "x1" (String.mk (fmt6 t1.1))).setA "y1" (String.mk (fmt6 t1.2))).setA
        "x2" (String.mk (fmt6 t2.1))).setA "y2" (String.mk (fmt6 t2.2)))
    | _, _, _, _ => none
  else if tag = "use" ∨ tag = "text" then
    let xv := e.getA "x"
    let yv := e.getA "y"
    if pyTruthy xv ∧ pyTruthy yv then
      match pyFloat? (xv.getD "").data, pyFloat? (yv.getD "").data with
      | some x, some y =>
        let t := transform_point x y m
        some ((e.setA "x" (String.mk (fmt6 t.1))).setA "y" (String.mk (fmt6 t.2)))
      | _, _ => none
    else some e
  else some e

/-- Source `apply_matrix_to_element(elem, matrix)`: a numeric identity matrix
only strips a truthy `transform` attribute; otherwise the stroke width is
scaled, the geometry rewritten by tag, and the `transform` attribute removed. -/
def apply_matrix_to_element (fns : MathFns) (e : Elem) (m : SvgMatrix) : Option Elem :=
  let tag := localTag e.tag
  if isIdentityM m then some (delTruthy e "transform")
  else
    let e1 := strokeWidthScale fns m e
    match geomApply fns m tag e1 with
    | none => none
    | some e2 => some (delTruthy e2 "transform")

/-- Source `apply_offset_to_element(elem, ox, oy)`. -/
def apply_offset_to_element (fns : MathFns) (e : Elem) (ox oy : Dec) : Option Elem :=
  apply_matrix_to_element fns e
    ⟨Dec.ofInt 1, Dec.ofInt 0, Dec.ofInt 0, Dec.ofInt 1, ox, oy⟩

/-- Characters of a CSS class name, the regex class `[a-zA-Z0-9_-]`. -/
def isCssNameChar (c : Char) : Bool := c.isAlpha ∨ c.isDigit ∨ c = '_' ∨ c = '-'

/-- Split at the first occurrence of a character (Python `split(c, 1)`),
assuming the character occurs. -/
def splitFirstChar (sep : Char) (cs : List Char) : List Char × List Char :=
  (cs.takeWhile fun c => c ≠ sep, (cs.dropWhile fun c => c ≠ sep).drop 1)

/-- Property keys kept by `parse_css_styles`. -/
def cssKeys : List String := ["fill", "stroke", "stroke-width", "opacity"]

/-- Parse the body of one CSS rule (`prop: value; ...`) into a property dict,
keeping only the recognized keys. -/
def cssParseProps (body : List Char) : List (String × String) :=
  (splitOnChar ';' body).foldl
    (fun props prop =>
      let prop := trimWs prop
      if prop.contains ':' then
        let (k, v) := splitFirstChar ':' prop
        let key := String.mk ((trimWs k).map Char.toLower)
        let value := String.mk (trimWs v)
        if cssKeys.contains key then attrSet props key value else props
      else props)
    []

/-- Scanner for `re.findall(r'\.([a-zA-Z0-9_-]+)\s*\x7b([^\x7d]+)\x7d', css)`:
simple class rules, leftmost non-overlapping; a failed attempt advances one
character. -/
def cssRulesAux : Nat → List Char → List (List Char × List Char)
  | 0, _ => []
  | _ + 1, [] => []
  | fuel + 1, c :: rest =>
    if c = '.' then
      let name := rest.takeWhile isCssNameChar
      if name.isEmpty then cssRulesAux fuel rest
      else
        let after := (rest.drop name.length).dropWhile isWsChar
        match after with
        | '\x7b' :: body0 =>
          let body := body0.takeWhile fun x => x ≠ '\x7d'
          if body.isEmpty then cssRulesAux fuel rest
          else
            match body0.drop body.length with
            | '\x7d' :: rem => (name, body) :: cssRulesAux fuel rem
            | _ => cssRulesAux fuel rest
        | _ => cssRulesAux fuel rest
    else cssRulesAux fuel rest

/-- All simple class rules of a style sheet text. -/
def cssRules (cs : List Char) : List (List Char × List Char) :=
  cssRulesAux (cs.length + 1) cs

/-- Class-to-properties table built by `parse_css_styles`. -/
def StyleMap : Type := List (String × List (String × String))

/-- Lookup in the style map (first binding). -/
def smGet : StyleMap → String → Option (List (String × String))
  | [], _ => none
  | (k0, v0) :: rest, cls => if k0 = cls then some v0 else smGet rest cls

/-- Update of the style map (`style_map[class_name] = props`). -/
def smSet (sm : StyleMap) (cls : String) (props : List (String × String)) : StyleMap :=
  match sm with
  | [] => [(cls, props)]
  | (k0, v0) :: rest =>
    if k0 = cls then (cls, props) :: rest else (k0, v0) :: smSet rest cls props

mutual
/-- Preorder traversal, the model of `root.iter()`. -/
def Elem.allElems : Elem → List Elem
  | .mk t a tx cs => Elem.mk t a tx cs :: ElemList.allElems cs
/-- Preorder traversal of a sibling spine. -/
def ElemList.allElems : ElemList → List Elem
  | .nil => []
  | .cons e es => e.allElems ++ ElemList.allElems es
end

/-- Source `parse_css_styles(root, ns)`: collect the simple class rules of
every `<style>` element with truthy text, in document order, later rules for
the same class replacing earlier ones. -/
def parse_css_styles (root : Elem) : StyleMap :=
  root.allElems.foldl
    (fun sm e =>
      if localTag e.tag = "style" ∧ pyTruthy e.text then
        (cssRules ((e.text.getD "").data)).foldl
          (fun sm r =>
            let props := cssParseProps r.2
            if props.isEmpty then sm else smSet sm (String.mk r.1) props)
          sm
      else sm)
    []

/-- Source `get_color_from_css(elem, style_map)`: fold the element's classes
over the style map; `none`-valued fill/stroke entries are skipped, while a
`stroke-width` entry always wins. -/
def get_color_from_css (sm : StyleMap) (e : Elem) :
    Option String × Option String × Option String :=
  match e.getA "class" with
  | none => (none, none, none)
  | some ca =>
    if ca.data.isEmpty then (none, none, none)
    else
      (pySplitWs ca.data).foldl
        (fun acc cls =>
          match smGet sm (String.mk cls) with
          | none => acc
          | some styles =>
            let (fill, stroke, sw) := acc
            let fill :=
              match attrGet styles "fill" with
              | some v => if v ≠ "none" then some v else fill
              | none => fill
            let stroke :=
              match attrGet styles "stroke" with
              | some v => if v ≠ "none" then some v else stroke
              | none => stroke
            let sw :=
              match attrGet styles "stroke-width" with
              | some v => some v
              | none => sw
            (fill, stroke, sw))
        (none, none, none)

/-- Source `get_effective_style(elem, attr_name, inherited_value)`: CSS class
value if truthy, else the element's own attribute if truthy and not `none`,
else the inherited value if truthy and not `none`, else unset. -/
def get_effective_style (sm : StyleMap) (e : Elem) (attrName : String)
    (inherited : Option String) : Option String :=
  let (cssFill, cssStroke, cssSw) := get_color_from_css sm e
  let cssValue :=
    if attrName = "fill" then cssFill
    else if attrName = "stroke" then cssStroke
    else if attrName = "stroke-width" then cssSw
    else none
  let attrValue := e.getA attrName
  if pyTruthy cssValue then cssValue
  else if pyTruthy attrValue ∧ attrValue ≠ some "none" then attrValue
  else if pyTruthy inherited ∧ inherited ≠ some "none" then inherited
  else none

/-- Source `LEAF_TAGS`. -/
def LEAF_TAGS : List String :=
  ["path", "rect", "circle", "ellipse", "line", "polyline", "polygon", "text", "image", "use"]

mutual
/-- Source `extract_leaves(elem, ...)` inside `flatten_groups`: resolve
effective styles, parse and compose the transform, recurse through groups,
bake and emit leaves, and silently drop every other element. -/
def extract_leaves (fns : MathFns) (sm : StyleMap) :
    Elem → Option String → Option String → Option String → Option SvgMatrix →
      Option (List Elem)
  | .mk tagRaw attrs txt children, inhF, inhS, inhW, inhM =>
    let el := Elem.mk tagRaw attrs txt children
    let tag := localTag tagRaw
    let fill := get_effective_style sm el "fill" inhF
    let stroke := get_effective_style sm el "stroke" inhS
    let strokeWidth := get_effective_style sm el "stroke-width" inhW
    let elemM? :=
      match attrGet attrs "transform" with
      | some ts => if ts.data.isEmpty then some identity_matrix else parse_transform_string fns ts.data
      | none => some identity_matrix
    match elemM? with
    | none => none
    | some elemM =>
      let comp :=
        match inhM with
        | some im => multiply_matrices im elemM
        | none => elemM
      if tag = "g" then
        extract_leaves_list fns sm children fill stroke strokeWidth (some comp)
      else if tag ∈ LEAF_TAGS then
        let baked? :=
          if ¬ isIdentityM comp then apply_matrix_to_element fns el comp
          else some (delTruthy el "transform")
        match baked? with
        | none => none
        | some e1 =>
          let e2 := applyStyle e1 "fill" fill
          let e3 := applyStyle e2 "stroke" stroke
          let e4 := applyStyle e3 "stroke-width" strokeWidth
          some [delTruthy e4 "class"]
      else some []

/-- Extraction over a sibling spine, concatenating the emitted leaves in
document order. -/
def extract_leaves_list (fns : MathFns) (sm : StyleMap) :
    ElemList → Option String → Option String → Option String → Option SvgMatrix →
      Option (List Elem)
  | .nil, _, _, _, _ => some []
  | .cons c cs, inhF, inhS, inhW, inhM =>
    match extract_leaves fns sm c inhF inhS inhW inhM with
    | none => none
    | some l =>
      match extract_leaves_list fns sm cs inhF inhS inhW inhM with
      | none => none
      | some r => some (l ++ r)
end

/-- Source `flatten_groups(root, ns, style_map)`: extract the leaves of every
root child with no inherited style and no inherited matrix, then replace the
root's children by the collected leaves. -/
def flatten_groups (fns : MathFns) (root : Elem) (sm : StyleMap) : Option Elem :=
  match extract_leaves_list fns sm root.children none none none none with
  | none => none
  | some leaves => some (root.withChildren (ElemList.ofList leaves))

/-- Parsed viewBox record (minX, minY, width, height). -/
structure ViewBox where
  minX : Dec
  minY : Dec
  width : Dec
  height : Dec
  deriving DecidableEq, Repr

/-- Source `parse_viewbox(viewbox_str)`: whitespace split, comma fallback,
exactly four float fields. -/
def parse_viewbox (s? : Option String) : Option ViewBox :=
  match s? with
  | none => none
  | some s =>
    if s.data.isEmpty then none
    else
      let parts0 := pySplitWs s.data
      let parts := if parts0.length ≠ 4 then pySplitWs (replaceChar ',' ' ' s.data) else parts0
      if parts.length ≠ 4 then none
      else
        match parts.mapM pyFloat? with
        | some [a, b, c, d] => some ⟨a, b, c, d⟩
        | _ => none

mutual
/-- The `apply_to_subtree` closure of `normalize_viewbox_offset`: offset every
leaf-tagged element, recursing through all children. -/
def applyOffsetSubtree (fns : MathFns) (m : SvgMatrix) : Elem → Option Elem
  | .mk t a tx cs =>
    let el := Elem.mk t a tx cs
    let e1? :=
      if localTag t ∈ LEAF_TAGS then apply_matrix_to_element fns el m
      else some el
    match e1? with
    | none => none
    | some e1 =>
      match applyOffsetSubtreeList fns m cs with
      | none => none
      | some cs1 => some (e1.withChildren cs1)

/-- Offset application over a sibling spine. -/
def applyOffsetSubtreeList (fns : MathFns) (m : SvgMatrix) : ElemList → Option ElemList
  | .nil => some .nil
  | .cons c cs =>
    match applyOffsetSubtree fns m c with
    | none => none
    | some c1 =>
      match applyOffsetSubtreeList fns m cs with
      | none => none
      | some cs1 => some (.cons c1 cs1)
end

/-- Source `normalize_viewbox_offset(root, viewbox, ns)`: translate every
leaf-tagged element by `(-minX, -minY)` and rewrite the viewBox attribute to
a zero origin; a zero origin is a no-op. -/
def normalize_viewbox_offset (fns : MathFns) (root : Elem) (vb : ViewBox) : Option Elem :=
  if vb.minX.isZero ∧ vb.minY.isZero then some root
  else
    let m : SvgMatrix :=
      ⟨Dec.ofInt 1, Dec.ofInt 0, Dec.ofInt 0, Dec.ofInt 1, vb.minX.neg, vb.minY.neg⟩
    match applyOffsetSubtreeList fns m root.children with
    | none => none
    | some cs1 =>
      some ((root.withChildren cs1).setA "viewBox"
        (String.mk ('0' :: ' ' :: '0' :: ' ' :: pyRepr vb.width ++ ' ' :: pyRepr vb.height)))

/-- Default viewBox of `main` when none parses. -/
def defaultVB : ViewBox := ⟨Dec.ofInt 0, Dec.ofInt 0, Dec.ofInt 100, Dec.ofInt 100⟩

/-- The engine steps of `main` (everything between XML parse and XML
serialization): build the CSS table, read the viewBox, set width/height,
flatten with baked transforms, then apply the viewBox offset when the origin
is nonzero. -/
def mainPass (fns : MathFns) (root : Elem) : Option Elem :=
  let sm := parse_css_styles root
  let vb := (parse_viewbox (root.getA "viewBox")).getD defaultVB
  let root1 := (root.setA "width" (String.mk (pyRepr vb.width))).setA "height"
    (String.mk (pyRepr vb.height))
  match flatten_groups fns root1 sm with
  | none => none
  | some root2 =>
    if ¬ (vb.minX.isZero ∧ vb.minY.isZero) then normalize_viewbox_offset fns root2 vb
    else some root2

/-- Translation matrix by integer amounts, for concrete statements. -/
def trM (tx ty : Int) : SvgMatrix :=
  ⟨Dec.ofInt 1, Dec.ofInt 0, Dec.ofInt 0, Dec.ofInt 1, Dec.ofInt tx, Dec.ofInt ty⟩

/-- Uniform integer scale matrix, for concrete statements. -/
def scM (s : Int) : SvgMatrix :=
  ⟨Dec.ofInt s, Dec.ofInt 0, Dec.ofInt 0, Dec.ofInt s, Dec.ofInt 0, Dec.ofInt 0⟩

/-- Rotation by 90 degrees (`matrix(0, 1, -1, 0, 0, 0)`), for concrete
statements. -/
def rot90M : SvgMatrix :=
  ⟨Dec.ofInt 0, Dec.ofInt 1, Dec.ofInt (-1), Dec.ofInt 0, Dec.ofInt 0, Dec.ofInt 0⟩

/-- Concrete input for C1: a `text` leaf whose subtree hides a `g` carrying
`transform` and `class`, next to a `path` with an empty `class` attribute. -/
def c1root : Elem :=
  .mk "svg" [] none
    (.cons (.mk "text" [] none
        (.cons (.mk "g" [("transform", "translate(1 2)"), ("class", "x")] none .nil) .nil))
      (.cons (.mk "path" [("class", "")] none .nil) .nil))

/-- Concrete element for C2: explicit `fill="none"`, no class. -/
def c2elem : Elem := .mk "path" [("fill", "none")] none .nil

/-- Concrete input for C2 end to end: a group with `fill="red"` around a path
with explicit `fill="none"`. -/
def c2root : Elem :=
  .mk "svg" [] none
    (.cons (.mk "g" [("fill", "red")] none
        (.cons (.mk "path" [("fill", "none")] none .nil) .nil)) .nil)

/-- Concrete element for the C2 witness: a class-styled path whose own
attribute is `fill="none"`. -/
def c2wElem : Elem := .mk "path" [("class", "water"), ("fill", "none")] none .nil

/-- Concrete style map for the C2 witness. -/
def c2wSm : StyleMap := [("water", [("fill", "#d9e9ff")])]

/-- Concrete input for C3: the spec's scenario path. -/
def c3root : Elem :=
  .mk "svg" [] none
    (.cons (.mk "path" [("transform", "translate(5,5)"), ("d", "M 0 0 L 10 0 L 10 10 Z")] none .nil)
      .nil)

/-- Expected output tree for C3. -/
def c3expected : Elem :=
  .mk "svg" [] none
    (.cons (.mk "path"
        [("d", "M5.000000 5.000000 L15.000000 5.000000 L15.000000 15.000000 Z")] none .nil)
      .nil)

/-- Concrete input for C4: a path written with relative (lowercase) commands
and no transform anywhere, so its composed matrix is the identity. -/
def c4root : Elem :=
  .mk "svg" [] none (.cons (.mk "path" [("d", "m 1 2 l 3 4")] none .nil) .nil)

/-- Concrete input for C5: a numeric stroke width under `scale(3)`. -/
def c5path : Elem :=
  .mk "path" [("stroke-width", "2"), ("transform", "scale(3)"), ("d", "M 0 0 L 10 0")] none .nil

/-- Root wrapping the C5 path. -/
def c5root : Elem := .mk "svg" [] none (.cons c5path .nil)

/-- Concrete input for C7: an unrecognized letter `E` with two numbers inside
a path. -/
def c7d : List Char := "M 0 0 E 7 8".data

/-- Concrete input for C9/C10 witnesses: nonzero viewBox origin, one path. -/
def c9root : Elem :=
  .mk "svg" [("viewBox", "10 0 100 100")] none
    (.cons (.mk "path" [("d", "M 10 0")] none .nil) .nil)

/-- Concrete input for C10: `style`, `defs` (with a nested path) and
`metadata` elements beside one real leaf. -/
def c10root : Elem :=
  .mk "svg" [] none
    (.cons (.mk "style" [] (some "junk") .nil)
      (.cons (.mk "defs" [] none (.cons (.mk "path" [("d", "M 0 0")] none .nil) .nil))
        (.cons (.mk "metadata" [] none .nil)
          (.cons (.mk "path" [("d", "M 1 1")] none .nil) .nil))))

/-- Trivial attribute: absent or empty (the only states `if elem.get(k): del`
can leave behind). -/
def trivialAttr (e : Elem) (key : String) : Prop :=
  e.getA key = none ∨ e.getA key = some ""

/-- Invariant of every element the flattener emits: a leaf tag, no non-empty
`transform`, no non-empty `class`. -/
def LeafInv (e : Elem) : Prop :=
  localTag e.tag ∈ LEAF_TAGS ∧ trivialAttr e "transform" ∧ trivialAttr e "class"

/-! Value lemmas for decimal fractions. -/

theorem Dec.pow_ne (kv : Nat) : ((10 : ℚ) ^ kv) ≠ 0 := pow_ne_zero _ (by norm_num)

theorem Dec.val_ofInt (i : Int) : (Dec.ofInt i).val = (i : ℚ) := by
  simp [Dec.val, Dec.ofInt]

theorem Dec.val_add (x y : Dec) : (x.add y).val = x.val + y.val := by
  have h1 := Dec.pow_ne x.k
  have h2 := Dec.pow_ne y.k
  simp only [Dec.val, Dec.add]
  push_cast
  rw [pow_add]
  field_simp
  try ring

theorem Dec.val_neg (x : Dec) : x.neg.val = -x.val := by
  simp [Dec.val, Dec.neg, neg_div]

theorem Dec.val_sub (x y : Dec) : (x.sub y).val = x.val - y.val := by
  rw [Dec.sub, Dec.val_add, Dec.val_neg, sub_eq_add_neg]

theorem Dec.val_mul (x y : Dec) : (x.mul y).val = x.val * y.val := by
  have h1 := Dec.pow_ne x.k
  have h2 := Dec.pow_ne y.k
  simp only [Dec.val, Dec.mul]
  push_cast
  rw [pow_add]
  field_simp

theorem Dec.val_half (x : Dec) : x.half.val = x.val / 2 := by
  have h1 := Dec.pow_ne x.k
  simp only [Dec.val, Dec.half]
  push_cast
  rw [pow_succ]
  field_simp
  ring

theorem Dec.numEq_iff (x y : Dec) : x.numEq y ↔ x.val = y.val := by
  have h1 := Dec.pow_ne x.k
  have h2 := Dec.pow_ne y.k
  simp only [Dec.numEq, Dec.val, div_eq_div_iff h1 h2]
  constructor
  · intro h
    exact_mod_cast congrArg (fun z : ℤ => (z : ℚ)) h
  · intro h
    exact_mod_cast h

theorem Dec.nonneg_iff (x : Dec) : x.nonneg = true ↔ 0 ≤ x.val := by
  have h1 : (0 : ℚ) < 10 ^ x.k := by positivity
  simp only [Dec.nonneg, decide_eq_true_eq, Dec.val, le_div_iff₀ h1, zero_mul]
  exact ⟨fun h => by exact_mod_cast h, fun h => by exact_mod_cast h⟩

/-- Claim C8: composition of the engine's affine matrices is associative —
`compose(A, compose(B, C))` equals `compose(compose(A, B), C)` entrywise as
numbers, with `compose` the source's `multiply_matrices` (right operand
applied first). -/
theorem C8_multiply_matrices_assoc (A B C : SvgMatrix) :
    (multiply_matrices A (multiply_matrices B C)).numEq
      (multiply_matrices (multiply_matrices A B) C) := by
  simp only [SvgMatrix.numEq, multiply_matrices, Dec.numEq_iff, Dec.val_add, Dec.val_mul]
  refine ⟨by ring, by ring, by ring, by ring, by ring, by ring⟩

/-! Dictionary lemmas. -/

theorem attrGet_attrSet_self (a : List (String × String)) (k v : String) :
    attrGet (attrSet a k v) k = some v := by
  induction a with
  | nil => simp [attrGet, attrSet]
  | cons p rest ih =>
    obtain ⟨k0, v0⟩ := p
    by_cases h0 : k0 = k
    · simp [attrSet, attrGet, h0]
    · simpa [attrSet, attrGet, h0] using ih

theorem attrGet_attrSet_ne (a : List (String × String)) (k v k' : String) (h : k' ≠ k) :
    attrGet (attrSet a k v) k' = attrGet a k' := by
  induction a with
  | nil => simp [attrGet, attrSet, Ne.symm h]
  | cons p rest ih =>
    obtain ⟨k0, v0⟩ := p
    by_cases h0 : k0 = k
    · subst h0
      simp [attrSet, attrGet, Ne.symm h, h]
    · by_cases h1 : k0 = k'
      · simp [attrSet, attrGet, h0, h1, h]
      · simpa [attrSet, attrGet, h0, h1] using ih

theorem attrGet_attrDel_self (a : List (String × String)) (k : String) :
    attrGet (attrDel a k) k = none := by
  induction a with
  | nil => simp [attrGet, attrDel]
  | cons p rest ih =>
    obtain ⟨k0, v0⟩ := p
    by_cases h0 : k0 = k
    · simpa [attrDel, h0] using ih
    · simpa [attrDel, h0, attrGet] using ih

theorem attrGet_attrDel_ne (a : List (String × String)) (k k' : String) (h : k' ≠ k) :
    attrGet (attrDel a k) k' = attrGet a k' := by
  induction a with
  | nil => simp [attrGet, attrDel]
  | cons p rest ih =>
    obtain ⟨k0, v0⟩ := p
    by_cases h0 : k0 = k
    · subst h0
      simpa [attrDel, attrGet, Ne.symm h] using ih
    · by_cases h1 : k0 = k'
      · simp [attrDel, attrGet, h0, h1, h]
      · simpa [attrDel, attrGet, h0, h1] using ih

theorem attrSet_self (a : List (String × String)) (k v : String)
    (h : attrGet a k = some v) : attrSet a k v = a := by
  induction a with
  | nil => simp [attrGet] at h
  | cons p rest ih =>
    obtain ⟨k0, v0⟩ := p
    by_cases h0 : k0 = k
    · subst h0
      rw [show attrGet ((k0, v0) :: rest) k0 = some v0 by simp [attrGet]] at h
      cases h
      simp [attrSet]
    · simp only [attrGet, if_neg h0] at h
      simp [attrSet, h0, ih h]

/-! Element attribute lemmas. -/

theorem Elem.tag_setA (e : Elem) (k v : String) : (e.setA k v).tag = e.tag := by
  cases e; rfl

theorem Elem.children_setA (e : Elem) (k v : String) : (e.setA k v).children = e.children := by
  cases e; rfl

theorem Elem.text_setA (e : Elem) (k v : String) : (e.setA k v).text = e.text := by
  cases e; rfl

theorem Elem.getA_setA_self (e : Elem) (k v : String) : (e.setA k v).getA k = some v := by
  cases e; simp [Elem.setA, Elem.getA, Elem.attrs, attrGet_attrSet_self]

theorem Elem.getA_setA_ne (e : Elem) (k v k' : String) (h : k' ≠ k) :
    (e.setA k v).getA k' = e.getA k' := by
  cases e; simp [Elem.setA, Elem.getA, Elem.attrs, attrGet_attrSet_ne _ _ _ _ h]

theorem Elem.setA_self (e : Elem) (k v : String) (h : e.getA k = some v) :
    e.setA k v = e := by
  cases e
  simp only [Elem.getA, Elem.attrs] at h
  simp [Elem.setA, attrSet_self _ _ _ h]

theorem Elem.tag_delA (e : Elem) (k : String) : (e.delA k).tag = e.tag := by
  cases e; rfl

theorem Elem.children_delA (e : Elem) (k : String) : (e.delA k).children = e.children := by
  cases e; rfl

theorem Elem.getA_delA_self (e : Elem) (k : String) : (e.delA k).getA k = none := by
  cases e; simp [Elem.delA, Elem.getA, Elem.attrs, attrGet_attrDel_self]

theorem Elem.getA_delA_ne (e : Elem) (k k' : String) (h : k' ≠ k) :
    (e.delA k).getA k' = e.getA k' := by
  cases e; simp [Elem.delA, Elem.getA, Elem.attrs, attrGet_attrDel_ne _ _ _ h]

theorem Elem.tag_delTruthy (e : Elem) (k : String) : (delTruthy e k).tag = e.tag := by
  unfold delTruthy
  split <;> simp [Elem.tag_delA]

theorem Elem.children_delTruthy (e : Elem) (k : String) :
    (delTruthy e k).children = e.children := by
  unfold delTruthy
  split <;> simp [Elem.children_delA]

theorem pyTruthy_false_iff (o : Option String) :
    pyTruthy o = false ↔ o = none ∨ o = some "" := by
  cases o with
  | none => simp [pyTruthy]
  | some s =>
    obtain ⟨data⟩ := s
    cases data with
    | nil => simp [pyTruthy]
    | cons c cs => simp [pyTruthy, String.ext_iff]

theorem trivialAttr_iff (e : Elem) (k : String) :
    trivialAttr e k ↔ pyTruthy (e.getA k) = false := by
  rw [pyTruthy_false_iff]; rfl

theorem delTruthy_trivial (e : Elem) (k : String) : trivialAttr (delTruthy e k) k := by
  unfold delTruthy
  by_cases h : pyTruthy (e.getA k) = true
  · rw [if_pos h]
    left
    exact Elem.getA_delA_self e k
  · rw [if_neg h]
    rw [trivialAttr_iff]
    simpa using h

theorem delTruthy_of_trivial (e : Elem) (k : String) (h : trivialAttr e k) :
    delTruthy e k = e := by
  unfold delTruthy
  rw [trivialAttr_iff] at h
  simp [h]

theorem Elem.getA_delTruthy_ne (e : Elem) (k k' : String) (h : k' ≠ k) :
    (delTruthy e k).getA k' = e.getA k' := by
  unfold delTruthy
  split <;> simp [Elem.getA_delA_ne _ _ _ h]

theorem Elem.tag_withChildren (e : Elem) (cs : ElemList) : (e.withChildren cs).tag = e.tag := by
  cases e; rfl

theorem Elem.getA_withChildren (e : Elem) (cs : ElemList) (k : String) :
    (e.withChildren cs).getA k = e.getA k := by
  cases e; rfl

theorem Elem.children_withChildren (e : Elem) (cs : ElemList) :
    (e.withChildren cs).children = cs := by
  cases e; rfl

theorem ElemList.toList_ofList (l : List Elem) : (ElemList.ofList l).toList = l := by
  induction l with
  | nil => rfl
  | cons e es ih => simp [ElemList.ofList, ElemList.toList, ih]

theorem ElemList.ofList_toList : ∀ cs : ElemList, ElemList.ofList cs.toList = cs
  | .nil => rfl
  | .cons e es => by simp [ElemList.toList, ElemList.ofList, ofList_toList es]

theorem Elem.getA_setA (e : Elem) (k v k' : String) :
    (e.setA k v).getA k' = if k' = k then some v else e.getA k' := by
  by_cases h : k' = k
  · subst h
    simp [Elem.getA_setA_self]
  · simp [h, Elem.getA_setA_ne _ _ _ _ h]

theorem strokeWidthScale_pres (fns : MathFns) (m : SvgMatrix) (e : Elem) :
    (strokeWidthScale fns m e).tag = e.tag ∧
      (strokeWidthScale fns m e).children = e.children ∧
      ∀ k, k ≠ "stroke-width" → (strokeWidthScale fns m e).getA k = e.getA k := by
  unfold strokeWidthScale
  repeat' split
  all_goals
    exact ⟨by simp [Elem.tag_setA], by simp [Elem.children_setA],
      fun k hk => by simp [Elem.getA_setA, hk]⟩

theorem geomApply_pres (fns : MathFns) (m : SvgMatrix) (tag : String) (e e' : Elem)
    (h : geomApply fns m tag e = some e') :
    e'.tag = e.tag ∧ e'.children = e.children ∧
      e'.getA "transform" = e.getA "transform" ∧ e'.getA "class" = e.getA "class" := by
  unfold geomApply at h
  dsimp only at h
  repeat' split at h
  all_goals first
    | exact Option.noConfusion h
    | (rw [Option.some.injEq] at h
       subst h
       refine ⟨?_, ?_, ?_, ?_⟩ <;>
         simp [Elem.tag_setA, Elem.children_setA, Elem.getA_setA])

theorem apply_matrix_pres (fns : MathFns) (e : Elem) (m : SvgMatrix) (e' : Elem)
    (h : apply_matrix_to_element fns e m = some e') :
    e'.tag = e.tag ∧ e'.children = e.children ∧
      trivialAttr e' "transform" ∧ e'.getA "class" = e.getA "class" := by
  unfold apply_matrix_to_element at h
  by_cases hid : isIdentityM m = true
  · rw [if_pos hid] at h
    injection h with h1
    subst h1
    refine ⟨Elem.tag_delTruthy e _, Elem.children_delTruthy e _, delTruthy_trivial e _, ?_⟩
    exact Elem.getA_delTruthy_ne e _ _ (by decide)
  · rw [if_neg hid] at h
    simp only at h
    cases heq : geomApply fns m (localTag e.tag) (strokeWidthScale fns m e) with
    | none => rw [heq] at h; cases h
    | some e2 =>
      rw [heq] at h
      injection h with h1
      subst h1
      obtain ⟨ht, hc, htr, hcl⟩ := geomApply_pres fns m _ _ _ heq
      obtain ⟨st, sc, sother⟩ := strokeWidthScale_pres fns m e
      refine ⟨?_, ?_, delTruthy_trivial _ _, ?_⟩
      · rw [Elem.tag_delTruthy, ht, st]
      · rw [Elem.children_delTruthy, hc, sc]
      · rw [Elem.getA_delTruthy_ne _ _ _ (by decide), hcl, sother _ (by decide)]


theorem applyStyle_tag (e : Elem) (key : String) (o : Option String) :
    (applyStyle e key o).tag = e.tag := by
  cases o with
  | none => simp [applyStyle]
  | some v => by_cases hv : v.data.isEmpty <;> simp [applyStyle, hv, Elem.tag_setA]

theorem applyStyle_getA_ne (e : Elem) (key : String) (o : Option String) (k : String)
    (h : k ≠ key) : (applyStyle e key o).getA k = e.getA k := by
  cases o with
  | none => simp [applyStyle]
  | some v =>
    by_cases hv : v.data.isEmpty <;> simp [applyStyle, hv, Elem.getA_setA, h]

theorem applyStyle_children (e : Elem) (key : String) (o : Option String) :
    (applyStyle e key o).children = e.children := by
  cases o with
  | none => simp [applyStyle]
  | some v => by_cases hv : v.data.isEmpty <;> simp [applyStyle, hv, Elem.children_setA]

mutual
theorem extract_leaves_inv :
    ∀ (fns : MathFns) (sm : StyleMap) (e : Elem) (f s w : Option String)
      (im : Option SvgMatrix) (l : List Elem),
      extract_leaves fns sm e f s w im = some l → ∀ x ∈ l, LeafInv x
  | fns, sm, .mk tagRaw attrs txt children, f, s, w, im, l, h, x, hx => by
    rw [extract_leaves] at h
    generalize hEM : (match attrGet attrs "transform" with
        | some ts => if ts.data.isEmpty = true then some identity_matrix
            else parse_transform_string fns ts.data
        | none => some identity_matrix) = emopt at h
    cases emopt with
    | none => cases h
    | some elemM =>
      dsimp only at h
      by_cases hg : localTag tagRaw = "g"
      · rw [if_pos hg] at h
        exact extract_leaves_list_inv fns sm children _ _ _ _ l h x hx
      · rw [if_neg hg] at h
        by_cases hleaf : localTag tagRaw ∈ LEAF_TAGS
        · rw [if_pos hleaf] at h
          generalize hC : (match im with
            | some im => multiply_matrices im elemM
            | none => elemM) = comp at h
          generalize hFv : get_effective_style sm (Elem.mk tagRaw attrs txt children) "fill" f
            = fv at h
          generalize hSv : get_effective_style sm (Elem.mk tagRaw attrs txt children) "stroke" s
            = sv at h
          generalize hWv : get_effective_style sm (Elem.mk tagRaw attrs txt children)
            "stroke-width" w = wv at h
          have main : ∀ e1 : Elem, e1.tag = tagRaw → trivialAttr e1 "transform" →
              some [delTruthy (applyStyle (applyStyle (applyStyle e1 "fill" fv)
                  "stroke" sv) "stroke-width" wv) "class"] = some l → LeafInv x := by
            intro e1 ht htr hsome
            rw [Option.some.injEq] at hsome
            subst hsome
            simp only [List.mem_singleton] at hx
            subst hx
            refine ⟨?_, ?_, delTruthy_trivial _ _⟩
            · rw [Elem.tag_delTruthy, applyStyle_tag, applyStyle_tag, applyStyle_tag, ht]
              exact hleaf
            · have heq : (delTruthy (applyStyle (applyStyle (applyStyle e1 "fill" fv)
                  "stroke" sv) "stroke-width" wv) "class").getA "transform" =
                  e1.getA "transform" := by
                rw [Elem.getA_delTruthy_ne _ _ _ (by decide),
                  applyStyle_getA_ne _ _ _ _ (by decide),
                  applyStyle_getA_ne _ _ _ _ (by decide),
                  applyStyle_getA_ne _ _ _ _ (by decide)]
              rw [trivialAttr, heq]
              exact htr
          by_cases hid : isIdentityM comp = true
          · rw [if_neg (by simp [hid])] at h
            exact main (delTruthy (Elem.mk tagRaw attrs txt children) "transform")
              (by rw [Elem.tag_delTruthy]; rfl) (delTruthy_trivial _ _) h
          · rw [if_pos (by simp [hid])] at h
            generalize hB : apply_matrix_to_element fns (Elem.mk tagRaw attrs txt children)
              comp = baked at h
            cases baked with
            | none => cases h
            | some e1 =>
              obtain ⟨ht, _, htr, _⟩ := apply_matrix_pres fns _ _ _ hB
              exact main e1 (by rw [ht]; rfl) htr h
        · rw [if_neg hleaf, Option.some.injEq] at h
          subst h
          cases hx
theorem extract_leaves_list_inv :
    ∀ (fns : MathFns) (sm : StyleMap) (cs : ElemList) (f s w : Option String)
      (im : Option SvgMatrix) (l : List Elem),
      extract_leaves_list fns sm cs f s w im = some l → ∀ x ∈ l, LeafInv x
  | fns, sm, .nil, f, s, w, im, l, h, x, hx => by
    rw [extract_leaves_list, Option.some.injEq] at h
    subst h
    cases hx
  | fns, sm, .cons c cs, f, s, w, im, l, h, x, hx => by
    rw [extract_leaves_list] at h
    generalize h1 : extract_leaves fns sm c f s w im = r1 at h
    cases r1 with
    | none => cases h
    | some l1 =>
      generalize h2 : extract_leaves_list fns sm cs f s w im = r2 at h
      cases r2 with
      | none => cases h
      | some l2 =>
        rw [Option.some.injEq] at h
        subst h
        rcases List.mem_append.mp hx with hx1 | hx2
        · exact extract_leaves_inv fns sm c f s w im l1 h1 x hx1
        · exact extract_leaves_list_inv fns sm cs f s w im l2 h2 x hx2
end

/-- Leaves of a successful flatten are exactly the root's new children. -/
theorem flatten_groups_children (fns : MathFns) (root : Elem) (sm : StyleMap) (out : Elem)
    (h : flatten_groups fns root sm = some out) :
    ∃ leaves, extract_leaves_list fns sm root.children none none none none = some leaves ∧
      out.childList = leaves ∧ ∀ k, out.getA k = root.getA k := by
  unfold flatten_groups at h
  generalize hL : extract_leaves_list fns sm root.children none none none none = r at h
  cases r with
  | none => cases h
  | some leaves =>
    rw [Option.some.injEq] at h
    subst h
    exact ⟨leaves, rfl,
      by rw [Elem.childList, Elem.children_withChildren, ElemList.toList_ofList],
      fun k => Elem.getA_withChildren _ _ _⟩

/-- Every child of a successful flatten's output satisfies the leaf
invariant. -/
theorem flatten_groups_inv (fns : MathFns) (root : Elem) (sm : StyleMap) (out : Elem)
    (h : flatten_groups fns root sm = some out) : ∀ c ∈ out.childList, LeafInv c := by
  obtain ⟨leaves, hL, hc, _⟩ := flatten_groups_children fns root sm out h
  rw [hc]
  exact extract_leaves_list_inv fns sm root.children none none none none leaves hL

/-- Claim C1, as stated, is false: the flattener strips `transform` and
`class` only from the emitted leaf elements themselves, never from their
descendants.  On `c1root` the output still contains a `g` element (inside a
`text` leaf) carrying a `transform` attribute, and a `class` attribute
survives both on that `g` and (empty) on a `path` whose `class=""` fails the
truthiness guard of `if elem.get('class'): del`. -/
theorem C1_counterexample :
    (flatten_groups exactFns c1root []).map (fun out =>
      (out.allElems.any fun e =>
        decide (localTag e.tag = "g") && (e.getA "transform").isSome) &&
      (out.allElems.any fun e => (e.getA "class").isSome)) = some true := by
  rfl

/-- Claim C1, amended: after flattening, every element that the flattener
emits — the direct children of the output root — has no non-empty `transform`
attribute and no non-empty `class` attribute, and none of them is a `g`
element.  (Descendants nested inside an emitted leaf are left untouched, and
an empty `transform=""` or `class=""` survives the truthiness-guarded
deletion.) -/
theorem C1_flatten_children_clean (fns : MathFns) (sm : StyleMap) (root out : Elem)
    (h : flatten_groups fns root sm = some out) :
    ∀ c ∈ out.childList,
      (c.getA "transform" = none ∨ c.getA "transform" = some "") ∧
        (c.getA "class" = none ∨ c.getA "class" = some "") ∧ localTag c.tag ≠ "g" := by
  intro c hc
  obtain ⟨hl, htr, hcl⟩ := flatten_groups_inv fns root sm out h c hc
  refine ⟨htr, hcl, ?_⟩
  intro hgg
  rw [hgg] at hl
  exact absurd hl (by decide)

/-- Witness for C1: the amended theorem applied to the concrete `c3root`
input (whose flatten succeeds and emits one baked path). -/
theorem C1_flatten_children_clean_witness :
    ((Elem.mk "path"
          [("d", "M5.000000 5.000000 L15.000000 5.000000 L15.000000 15.000000 Z")]
          none .nil).getA "transform" = none ∨
        (Elem.mk "path"
          [("d", "M5.000000 5.000000 L15.000000 5.000000 L15.000000 15.000000 Z")]
          none .nil).getA "transform" = some "") ∧
      ((Elem.mk "path"
          [("d", "M5.000000 5.000000 L15.000000 5.000000 L15.000000 15.000000 Z")]
          none .nil).getA "class" = none ∨
        (Elem.mk "path"
          [("d", "M5.000000 5.000000 L15.000000 5.000000 L15.000000 15.000000 Z")]
          none .nil).getA "class" = some "") ∧
      localTag (Elem.mk "path"
        [("d", "M5.000000 5.000000 L15.000000 5.000000 L15.000000 15.000000 Z")]
        none .nil).tag ≠ "g" :=
  C1_flatten_children_clean exactFns [] c3root c3expected (by rfl)
    (Elem.mk "path" [("d", "M5.000000 5.000000 L15.000000 5.000000 L15.000000 15.000000 Z")]
      none .nil) (List.Mem.head _)

/-- Claim C10: the flattener keeps only `g` (recursed into, discarded) and
the ten leaf tags; an element with any other local tag contributes no leaves
at all — it is dropped together with its entire subtree — so every child of
the output root carries a leaf tag. -/
theorem C10_non_leaf_dropped :
    (∀ (fns : MathFns) (sm : StyleMap) (root out : Elem),
        flatten_groups fns root sm = some out →
        ∀ c ∈ out.childList, localTag c.tag ∈ LEAF_TAGS) ∧
      (∀ (fns : MathFns) (sm : StyleMap) (e : Elem) (f s w : Option String)
        (im : Option SvgMatrix) (l : List Elem),
        localTag e.tag ≠ "g" → localTag e.tag ∉ LEAF_TAGS →
        extract_leaves fns sm e f s w im = some l → l = []) := by
  constructor
  · intro fns sm root out h c hc
    exact (flatten_groups_inv fns root sm out h c hc).1
  · intro fns sm e f s w im l hg hleaf h
    cases e with
    | mk tagRaw attrs txt children =>
      rw [extract_leaves] at h
      generalize hEM : (match attrGet attrs "transform" with
          | some ts => if ts.data.isEmpty = true then some identity_matrix
              else parse_transform_string fns ts.data
          | none => some identity_matrix) = emopt at h
      cases emopt with
      | none => cases h
      | some elemM =>
        dsimp only at h
        rw [if_neg (by simpa using hg), if_neg (by simpa using hleaf),
          Option.some.injEq] at h
        exact h.symm

/-- Witness for C10: flattening an input whose root holds `style`, `defs`
(with a nested path) and `metadata` next to one real path keeps exactly the
real path, and the second conjunct applied to the `style` element. -/
theorem C10_non_leaf_dropped_witness :
    flatten_groups exactFns c10root [] =
        some (.mk "svg" [] none (.cons (.mk "path" [("d", "M 1 1")] none .nil) .nil)) ∧
      localTag (Elem.mk "path" [("d", "M 1 1")] none .nil).tag ∈ LEAF_TAGS ∧
      ([] : List Elem) = [] := by
  refine ⟨by rfl, ?_, ?_⟩
  · exact C10_non_leaf_dropped.1 exactFns [] c10root
      (.mk "svg" [] none (.cons (.mk "path" [("d", "M 1 1")] none .nil) .nil)) (by rfl)
      (Elem.mk "path" [("d", "M 1 1")] none .nil) (List.Mem.head _)
  · exact C10_non_leaf_dropped.2 exactFns [] (Elem.mk "style" [] (some "junk") .nil)
      none none none none [] (by decide) (by decide) (by rfl)

/-- A trivial class attribute yields no CSS values. -/
theorem get_color_none_class (sm : StyleMap) (e : Elem)
    (h : e.getA "class" = none ∨ e.getA "class" = some "") :
    get_color_from_css sm e = (none, none, none) := by
  unfold get_color_from_css
  rcases h with h | h <;> rw [h]
  simp

/-- One matching class computes all three CSS values: `none`-valued fill and
stroke rules are skipped, while a `stroke-width` rule always applies. -/
theorem get_color_single_class (sm : StyleMap) (e : Elem) (ca : String) (cls : List Char)
    (props : List (String × String))
    (hca : e.getA "class" = some ca) (hsplit : pySplitWs ca.data = [cls])
    (hsm : smGet sm (String.mk cls) = some props) :
    get_color_from_css sm e =
      ((match attrGet props "fill" with
        | some v => if v ≠ "none" then some v else none
        | none => none),
       (match attrGet props "stroke" with
        | some v => if v ≠ "none" then some v else none
        | none => none),
       (match attrGet props "stroke-width" with
        | some v => some v
        | none => none)) := by
  have hne : ca.data.isEmpty = false := by
    cases hd : ca.data with
    | nil => rw [pySplitWs, hd] at hsplit; simp [splitWsAux] at hsplit
    | cons c cs => simp
  unfold get_color_from_css
  rw [hca]
  dsimp only
  rw [if_neg (by simp [hne]), hsplit]
  simp only [List.foldl]
  rw [hsm]

/-- Non-empty strings are truthy. -/
theorem pyTruthy_true_of_ne (v : String) (h : v ≠ "") : pyTruthy (some v) = true := by
  rw [pyTruthy]
  cases hv : v.data with
  | nil => exact absurd (by rw [String.ext_iff, hv]) h
  | cons c cs => simp

/-- Unfolding of `get_effective_style` through a computed CSS value. -/
theorem ges_unfold (sm : StyleMap) (e : Elem) (attrName : String) (inh : Option String)
    (cv : Option String)
    (hcv : (if attrName = "fill" then (get_color_from_css sm e).1
        else if attrName = "stroke" then (get_color_from_css sm e).2.1
        else if attrName = "stroke-width" then (get_color_from_css sm e).2.2
        else none) = cv) :
    get_effective_style sm e attrName inh =
      (if pyTruthy cv = true then cv
       else if pyTruthy (e.getA attrName) = true ∧ e.getA attrName ≠ some "none" then
         e.getA attrName
       else if pyTruthy inh = true ∧ inh ≠ some "none" then inh
       else none) := by
  unfold get_effective_style
  rcases hcc : get_color_from_css sm e with ⟨cf, cs1, cw⟩
  rw [hcc] at hcv
  dsimp only at hcv
  dsimp only
  rw [hcv]

/-- The attribute-and-inheritance tail of the precedence chain, once the CSS
value is unset. -/
theorem ges_no_css (sm : StyleMap) (e : Elem) (attrName : String) (inh : Option String)
    (hcv : (if attrName = "fill" then (get_color_from_css sm e).1
        else if attrName = "stroke" then (get_color_from_css sm e).2.1
        else if attrName = "stroke-width" then (get_color_from_css sm e).2.2
        else none) = none) :
    get_effective_style sm e attrName inh =
      (if pyTruthy (e.getA attrName) = true ∧ e.getA attrName ≠ some "none" then
         e.getA attrName
       else if pyTruthy inh = true ∧ inh ≠ some "none" then inh
       else none) := by
  rw [ges_unfold sm e attrName inh none hcv]
  rw [if_neg (by simp [pyTruthy])]

/-- The CSS chain is unset for every attribute name when the class attribute
is trivial. -/
theorem css_chain_none (sm : StyleMap) (e : Elem) (attrName : String)
    (hclass : e.getA "class" = none ∨ e.getA "class" = some "") :
    (if attrName = "fill" then (get_color_from_css sm e).1
      else if attrName = "stroke" then (get_color_from_css sm e).2.1
      else if attrName = "stroke-width" then (get_color_from_css sm e).2.2
      else none) = none := by
  rw [get_color_none_class sm e hclass]
  split
  · rfl
  · split
    · rfl
    · split <;> rfl

/-- Claim C2, amended: for each of fill, stroke and stroke-width the code's
precedence is CSS class rule, over the element's own non-`none`, non-empty
attribute, over a non-`none`, non-empty inherited value, over unset, where a
`none`-valued fill or stroke rule is skipped (falling through to the
attribute) while a `stroke-width` rule applies even when its value is
`none` — and an explicit `none` attribute does NOT win over inheritance: it
is treated like an unset attribute, so a non-`none` inherited value replaces
it. -/
theorem C2_style_precedence (sm : StyleMap) (e : Elem) (inh : Option String) :
    (∀ (ca : String) (cls : List Char) (props : List (String × String)) (v : String),
        e.getA "class" = some ca → pySplitWs ca.data = [cls] →
        smGet sm (String.mk cls) = some props → attrGet props "fill" = some v →
        v ≠ "none" → v ≠ "" →
        get_effective_style sm e "fill" inh = some v) ∧
      (∀ (ca : String) (cls : List Char) (props : List (String × String)) (v : String),
        e.getA "class" = some ca → pySplitWs ca.data = [cls] →
        smGet sm (String.mk cls) = some props → attrGet props "stroke" = some v →
        v ≠ "none" → v ≠ "" →
        get_effective_style sm e "stroke" inh = some v) ∧
      (∀ (ca : String) (cls : List Char) (props : List (String × String)) (v : String),
        e.getA "class" = some ca → pySplitWs ca.data = [cls] →
        smGet sm (String.mk cls) = some props → attrGet props "stroke-width" = some v →
        v ≠ "" →
        get_effective_style sm e "stroke-width" inh = some v) ∧
      (∀ (attrName ca : String) (cls : List Char) (props : List (String × String)) (v : String),
        attrName = "fill" ∨ attrName = "stroke" →
        e.getA "class" = some ca → pySplitWs ca.data = [cls] →
        smGet sm (String.mk cls) = some props → attrGet props attrName = some "none" →
        e.getA attrName = some v → v ≠ "" → v ≠ "none" →
        get_effective_style sm e attrName inh = some v) ∧
      (∀ (attrName v : String),
        e.getA "class" = none ∨ e.getA "class" = some "" →
        e.getA attrName = some v → v ≠ "" → v ≠ "none" →
        get_effective_style sm e attrName inh = some v) ∧
      (∀ (attrName w : String),
        e.getA "class" = none ∨ e.getA "class" = some "" →
        (e.getA attrName = none ∨ e.getA attrName = some "none" ∨ e.getA attrName = some "") →
        inh = some w → w ≠ "" → w ≠ "none" →
        get_effective_style sm e attrName inh = some w) ∧
      (∀ attrName : String,
        e.getA "class" = none ∨ e.getA "class" = some "" →
        e.getA attrName = none → inh = none →
        get_effective_style sm e attrName inh = none) := by
  have attrTail : ∀ (attrName v : String),
      (if attrName = "fill" then (get_color_from_css sm e).1
        else if attrName = "stroke" then (get_color_from_css sm e).2.1
        else if attrName = "stroke-width" then (get_color_from_css sm e).2.2
        else none) = none →
      e.getA attrName = some v → v ≠ "" → v ≠ "none" →
      get_effective_style sm e attrName inh = some v := by
    intro attrName v hcv hA hve hvn
    rw [ges_no_css sm e attrName inh hcv, hA,
      if_pos ⟨pyTruthy_true_of_ne v hve, by simp [hvn]⟩]
  refine ⟨?_, ?_, ?_, ?_, ?_, ?_, ?_⟩
  · intro ca cls props v hca hsplit hsm hv hvn hve
    have hfull := get_color_single_class sm e ca cls props hca hsplit hsm
    have hcv : (if "fill" = "fill" then (get_color_from_css sm e).1
        else if "fill" = "stroke" then (get_color_from_css sm e).2.1
        else if "fill" = "stroke-width" then (get_color_from_css sm e).2.2
        else none) = some v := by
      rw [if_pos rfl, hfull, hv]
      simp [hvn]
    rw [ges_unfold sm e "fill" inh (some v) hcv,
      if_pos (pyTruthy_true_of_ne v hve)]
  · intro ca cls props v hca hsplit hsm hv hvn hve
    have hfull := get_color_single_class sm e ca cls props hca hsplit hsm
    have hcv : (if "stroke" = "fill" then (get_color_from_css sm e).1
        else if "stroke" = "stroke" then (get_color_from_css sm e).2.1
        else if "stroke" = "stroke-width" then (get_color_from_css sm e).2.2
        else none) = some v := by
      rw [if_neg (by decide), if_pos rfl, hfull, hv]
      simp [hvn]
    rw [ges_unfold sm e "stroke" inh (some v) hcv,
      if_pos (pyTruthy_true_of_ne v hve)]
  · intro ca cls props v hca hsplit hsm hv hve
    have hfull := get_color_single_class sm e ca cls props hca hsplit hsm
    have hcv : (if "stroke-width" = "fill" then (get_color_from_css sm e).1
        else if "stroke-width" = "stroke" then (get_color_from_css sm e).2.1
        else if "stroke-width" = "stroke-width" then (get_color_from_css sm e).2.2
        else none) = some v := by
      rw [if_neg (by decide), if_neg (by decide), if_pos rfl, hfull, hv]
    rw [ges_unfold sm e "stroke-width" inh (some v) hcv,
      if_pos (pyTruthy_true_of_ne v hve)]
  · intro attrName ca cls props v hname hca hsplit hsm hnone hA hve hvn
    have hfull := get_color_single_class sm e ca cls props hca hsplit hsm
    rcases hname with rfl | rfl
    · refine attrTail "fill" v ?_ hA hve hvn
      rw [if_pos rfl, hfull, hnone]
      simp
    · refine attrTail "stroke" v ?_ hA hve hvn
      rw [if_neg (by decide), if_pos rfl, hfull, hnone]
      simp
  · intro attrName v hclass hA hve hvn
    exact attrTail attrName v (css_chain_none sm e attrName hclass) hA hve hvn
  · intro attrName w hclass hattr hw hwe hwn
    rw [ges_no_css sm e attrName inh (css_chain_none sm e attrName hclass)]
    have hnot : ¬ (pyTruthy (e.getA attrName) = true ∧ e.getA attrName ≠ some "none") := by
      rcases hattr with h | h | h <;> rw [h] <;> simp [pyTruthy]
    rw [if_neg hnot, hw, if_pos ⟨pyTruthy_true_of_ne w hwe, by simp [hwn]⟩]
  · intro attrName hclass hA hinh
    rw [ges_no_css sm e attrName inh (css_chain_none sm e attrName hclass)]
    rw [if_neg (by simp [hA, pyTruthy]), hinh, if_neg (by simp [pyTruthy])]

/-- Claim C2, as stated, is false in its explicit-`none` part: with no CSS
rule and a non-`none` inherited value, an element's own `fill="none"` is
skipped by the `attr_value != 'none'` check, so the inherited value wins —
also end to end through the flattener, which overwrites the `none` with the
inherited color. -/
theorem C2_counterexample :
    get_effective_style [] c2elem "fill" (some "red") = some "red" ∧
      some "red" ≠ some ("none" : String) ∧
      flatten_groups exactFns c2root [] =
        some (.mk "svg" [] none (.cons (.mk "path" [("fill", "red")] none .nil) .nil)) :=
  ⟨rfl, by decide, rfl⟩

/-- Witness for C2: each precedence conjunct at a concrete input — a fill CSS
rule beating `fill="none"`, a stroke CSS rule, a stroke-width rule whose value
is literally `none` still applied, a `none`-valued fill rule skipped in favor
of the element's own attribute, an own attribute beating inheritance,
inheritance beating an explicit `none` attribute, and everything-unset. -/
theorem C2_style_precedence_witness :
    get_effective_style c2wSm c2wElem "fill" (some "red") = some "#d9e9ff" ∧
      get_effective_style [("river", [("stroke", "#123456")])]
        (Elem.mk "path" [("class", "river")] none .nil) "stroke" none =
        some "#123456" ∧
      get_effective_style [("w", [("stroke-width", "none")])]
        (Elem.mk "path" [("class", "w")] none .nil) "stroke-width" none =
        some "none" ∧
      get_effective_style [("x", [("fill", "none")])]
        (Elem.mk "path" [("class", "x"), ("fill", "blue")] none .nil) "fill"
        (some "red") = some "blue" ∧
      get_effective_style [] (Elem.mk "path" [("fill", "blue")] none .nil) "fill"
        (some "red") = some "blue" ∧
      get_effective_style [] c2elem "fill" (some "red") = some "red" ∧
      get_effective_style [] (Elem.mk "path" [] none .nil) "fill" none = none := by
  refine ⟨?_, ?_, ?_, ?_, ?_, ?_, ?_⟩
  · exact (C2_style_precedence c2wSm c2wElem (some "red")).1 "water" "water".data
      [("fill", "#d9e9ff")] "#d9e9ff" (by rfl) (by rfl) (by rfl) (by rfl) (by decide)
      (by decide)
  · exact (C2_style_precedence [("river", [("stroke", "#123456")])]
      (Elem.mk "path" [("class", "river")] none .nil) none).2.1 "river" "river".data
      [("stroke", "#123456")] "#123456" (by rfl) (by rfl) (by rfl) (by rfl)
      (by decide) (by decide)
  · exact (C2_style_precedence [("w", [("stroke-width", "none")])]
      (Elem.mk "path" [("class", "w")] none .nil) none).2.2.1 "w" "w".data
      [("stroke-width", "none")] "none" (by rfl) (by rfl) (by rfl) (by rfl)
      (by decide)
  · exact (C2_style_precedence [("x", [("fill", "none")])]
      (Elem.mk "path" [("class", "x"), ("fill", "blue")] none .nil)
      (some "red")).2.2.2.1 "fill" "x" "x".data [("fill", "none")] "blue"
      (Or.inl rfl) (by rfl) (by rfl) (by rfl) (by rfl) (by rfl) (by decide)
      (by decide)
  · exact (C2_style_precedence [] (Elem.mk "path" [("fill", "blue")] none .nil)
      (some "red")).2.2.2.2.1 "fill" "blue" (Or.inl (by rfl)) (by rfl) (by decide)
      (by decide)
  · exact (C2_style_precedence [] c2elem (some "red")).2.2.2.2.2.1 "fill" "red"
      (Or.inl (by rfl)) (Or.inr (Or.inl (by rfl))) rfl (by decide) (by decide)
  · exact (C2_style_precedence [] (Elem.mk "path" [] none .nil) none).2.2.2.2.2.2
      "fill" (Or.inl (by rfl)) rfl rfl

/-- Claim C3: parsing `translate(5,5)` yields the matrix `(1,0,0,1,5,5)`, and
flattening the path (identity ambient matrix composed with the parsed
translation) produces a `d` whose numeric values are `M (5,5)`, `L (15,5)`,
`L (15,15)`, `Z` — here in the engine's own output format
`M5.000000 5.000000 L15.000000 5.000000 L15.000000 15.000000 Z` — with the
`transform` attribute removed. -/
theorem C3_translate_bake :
    parse_transform_string exactFns "translate(5,5)".data =
        some ⟨Dec.ofInt 1, Dec.ofInt 0, Dec.ofInt 0, Dec.ofInt 1, Dec.ofInt 5, Dec.ofInt 5⟩ ∧
      flatten_groups exactFns c3root [] = some c3expected ∧
      (c3expected.childList.map fun e => e.getA "transform") = [none] :=
  ⟨rfl, rfl, rfl⟩

/-- Claim C4, as stated, is false: when the composed matrix is the identity,
the flattener skips the path rewriter entirely (`apply_matrix_to_element`
returns after deleting a truthy `transform`), so relative lowercase commands
survive verbatim in the output. -/
theorem C4_counterexample :
    flatten_groups exactFns c4root [] =
        some (.mk "svg" [] none (.cons (.mk "path" [("d", "m 1 2 l 3 4")] none .nil) .nil)) ∧
      ("m 1 2 l 3 4".data.any fun c => isPathCmdChar c && c.isLower) = true :=
  ⟨rfl, by rfl⟩

/-- Claim C5 records the spec's intent (stroke width scaled by the average
extracted scale), and `apply_matrix_to_element` indeed scales it (first
conjunct: `2 × 3 = 6.000000`); but the flattening pass then overwrites the
scaled value with the effective style captured *before* baking, so the
emitted element carries the unscaled `2` (second conjunct) — the pipeline
contradicts the module's own `Adjusts stroke-width when transforms include
scaling` documentation. -/
theorem C5_stroke_width_clobbered :
    (apply_matrix_to_element exactFns c5path (scM 3)).map (fun e => e.getA "stroke-width") =
        some (some "6.000000") ∧
      (flatten_groups exactFns c5root []).map (fun out =>
        out.childList.map fun e => e.getA "stroke-width") = some [some "2"] :=
  ⟨rfl, rfl⟩

/-- Claim C7 is false as stated: the tokenizer regex
`([MLHVCSQTAZ])([^MLHVCSQTAZ]*)` can only produce recognized command
letters, so the `else` passthrough branch is dead code.  An unrecognized
letter such as `E` lands in the preceding command's parameter run (second
conjunct), its numbers are consumed as extra coordinates of that command, and
the letter itself vanishes from the output (first and third conjuncts); the
run still never aborts (the result is `some _`). -/
theorem C7_unrecognized_letter_dropped :
    transform_path_d exactFns c7d (trM 1 1) =
        some "M1.000000 1.000000 8.000000 9.000000".data ∧
      pathTokens c7d = [('M', " 0 0 E 7 8".data)] ∧
      "M1.000000 1.000000 8.000000 9.000000".data.contains 'E' = false ∧
      "M1.000000 1.000000 8.000000 9.000000".data.contains 'e' = false :=
  ⟨rfl, rfl, by rfl, by rfl⟩

/-- Claim C4, amended: when the path rewriter actually runs (the flattener
invokes it only for a non-identity composed matrix), every recognized
command that carries parameters — and `Z` in either case — is emitted in
absolute (uppercase) form; a path whose composed matrix is the identity is
left unchanged (see the counterexample), and unrecognized letters never
reach the rewriter at all (see C7). -/
theorem C4_rewriter_absolute (fns : MathFns) (m : SvgMatrix) (cur : Dec × Dec)
    (cmd : Char) (params : List Char) (st : Dec × Dec) (seg : List Char)
    (hcmd : isPathCmdChar cmd = true)
    (hp : (trimWs params).isEmpty = false ∨ cmd.toUpper = 'Z')
    (hstep : cmdStep fns m cur cmd params = some (st, seg)) :
    seg.head?.map Char.isUpper = some true := by
  have hmem : cmd.toUpper ∈ (['M', 'L', 'H', 'V', 'C', 'S', 'Q', 'T', 'A', 'Z'] : List Char) := by
    simpa [isPathCmdChar, charIn, List.contains_iff_exists_mem_beq] using hcmd
  unfold cmdStep at hstep
  by_cases hz : cmd.toUpper = 'Z'
  · rw [if_pos (Or.inr hz), Option.some.injEq, Prod.mk.injEq] at hstep
    obtain ⟨-, hseg⟩ := hstep
    rw [← hseg, if_neg (by simp [hz])]
    simp [hz]
  · rcases hp with htrim | hz'
    · rw [if_neg (by simp [htrim, hz])] at hstep
      generalize hnums : (pyNumTokens (trimWs params)).mapM pyFloat? = r at hstep
      cases r with
      | none => cases hstep
      | some nums =>
        dsimp only at hstep
        simp only [List.mem_cons, List.not_mem_nil, or_false] at hmem
        rcases hmem with hU | hU | hU | hU | hU | hU | hU | hU | hU | hU <;>
          simp only [hU] at hstep hz
        · rw [if_pos (by decide), Option.some.injEq, Prod.mk.injEq] at hstep
          obtain ⟨-, hseg⟩ := hstep
          rw [← hseg]
          rfl
        · rw [if_pos (by decide), Option.some.injEq, Prod.mk.injEq] at hstep
          obtain ⟨-, hseg⟩ := hstep
          rw [← hseg]
          rfl
        · rw [if_neg (by decide), if_pos (by decide), Option.some.injEq, Prod.mk.injEq] at hstep
          obtain ⟨-, hseg⟩ := hstep
          rw [← hseg]
          rfl
        · rw [if_neg (by decide), if_neg (by decide), if_pos (by decide), Option.some.injEq, Prod.mk.injEq] at hstep
          obtain ⟨-, hseg⟩ := hstep
          rw [← hseg]
          rfl
        · rw [if_neg (by decide), if_neg (by decide), if_neg (by decide), if_pos (by decide), Option.some.injEq, Prod.mk.injEq] at hstep
          obtain ⟨-, hseg⟩ := hstep
          rw [← hseg]
          rfl
        · rw [if_neg (by decide), if_neg (by decide), if_neg (by decide), if_neg (by decide), if_pos (by decide), Option.some.injEq, Prod.mk.injEq] at hstep
          obtain ⟨-, hseg⟩ := hstep
          rw [← hseg]
          rfl
        · rw [if_neg (by decide), if_neg (by decide), if_neg (by decide), if_neg (by decide), if_neg (by decide), if_pos (by decide), Option.some.injEq, Prod.mk.injEq] at hstep
          obtain ⟨-, hseg⟩ := hstep
          rw [← hseg]
          rfl
        · rw [if_pos (by decide), Option.some.injEq, Prod.mk.injEq] at hstep
          obtain ⟨-, hseg⟩ := hstep
          rw [← hseg]
          rfl
        · rw [if_neg (by decide), if_neg (by decide), if_neg (by decide), if_neg (by decide), if_neg (by decide), if_neg (by decide), if_pos (by decide), Option.some.injEq, Prod.mk.injEq] at hstep
          obtain ⟨-, hseg⟩ := hstep
          rw [← hseg]
          rfl
        · exact absurd trivial hz
    · exact absurd hz' hz

/-- Witness for C4: the rewriter step on a relative `l 3 4` under
`translate(1, 1)` emits the absolute segment `L4.000000 5.000000`. -/
theorem C4_rewriter_absolute_witness :
    cmdStep exactFns (trM 1 1) (Dec.ofInt 0, Dec.ofInt 0) 'l' " 3 4".data =
        some ((Dec.ofInt 3, Dec.ofInt 4), "L4.000000 5.000000".data) ∧
      ("L4.000000 5.000000".data.head?.map Char.isUpper) = some true := by
  refine ⟨by rfl, ?_⟩
  exact C4_rewriter_absolute exactFns (trM 1 1) (Dec.ofInt 0, Dec.ofInt 0) 'l' " 3 4".data
    (Dec.ofInt 3, Dec.ofInt 4) "L4.000000 5.000000".data (by rfl) (Or.inl (by rfl)) (by rfl)

/-- Claim C6: for an elliptical-arc command under matrix `(a,b,c,d,e,f)` the
rewriter multiplies `rx` by `sqrt(a² + b²)` and `ry` by `sqrt(c² + d²)`, adds
`atan2(b, a)` in degrees to the x-axis rotation, inverts the sweep flag
exactly when the determinant `a·d − b·c` is negative, passes the large-arc
flag through unchanged, and transforms the endpoint as an ordinary point
(after the relative-to-absolute shift); plus a concrete run through
`transform_path_d` under a 90-degree rotation. -/
theorem C6_arc_transform :
    (∀ (fns : MathFns) (m : SvgMatrix) (isRel : Bool) (cur cur' : Dec × Dec)
        (rx ry rot laf sw x y : Dec) (out : List Dec),
        arcStep fns m isRel cur (rx, ry, rot, laf, sw, x, y) = (cur', out) →
        out.getD 0 (Dec.ofInt 0) = rx.mul (fns.sqrt ((m.a.mul m.a).add (m.b.mul m.b))) ∧
          ((m.a.mul m.a).add (m.b.mul m.b)).val = m.a.val ^ 2 + m.b.val ^ 2 ∧
          out.getD 1 (Dec.ofInt 0) = ry.mul (fns.sqrt ((m.c.mul m.c).add (m.d.mul m.d))) ∧
          ((m.c.mul m.c).add (m.d.mul m.d)).val = m.c.val ^ 2 + m.d.val ^ 2 ∧
          out.getD 2 (Dec.ofInt 0) = rot.add (fns.atan2Deg m.b m.a) ∧
          out.getD 3 (Dec.ofInt 0) = laf ∧
          out.getD 4 (Dec.ofInt 0) =
            (if ((m.a.mul m.d).sub (m.b.mul m.c)).val < 0 then (Dec.ofInt 1).sub sw else sw) ∧
          ((m.a.mul m.d).sub (m.b.mul m.c)).val = m.a.val * m.d.val - m.b.val * m.c.val ∧
          (out.getD 5 (Dec.ofInt 0), out.getD 6 (Dec.ofInt 0)) =
            transform_point (if isRel then x.add cur.1 else x)
              (if isRel then y.add cur.2 else y) m ∧
          cur' = (if isRel then x.add cur.1 else x, if isRel then y.add cur.2 else y)) ∧
      transform_path_d exactFns "A 2 3 10 1 0 4 5".data rot90M =
        some "A2.000000 3.000000 100.000000 1.000000 0.000000 -5.000000 4.000000".data := by
  constructor
  · intro fns m isRel cur cur' rx ry rot laf sw x y out h
    unfold arcStep at h
    dsimp only at h
    rw [Prod.mk.injEq] at h
    obtain ⟨h1, h2⟩ := h
    subst h1
    subst h2
    refine ⟨rfl, ?_, rfl, ?_, rfl, rfl, ?_, ?_, rfl, rfl⟩
    · simp [Dec.val_add, Dec.val_mul]
      ring
    · simp [Dec.val_add, Dec.val_mul]
      ring
    · by_cases h4 : ((m.a.mul m.d).sub (m.b.mul m.c)).nonneg = true
      · have : ¬ ((m.a.mul m.d).sub (m.b.mul m.c)).val < 0 :=
          not_lt.mpr ((Dec.nonneg_iff _).mp h4)
        rw [if_neg this]
        simp only [List.getD, h4, if_true]
        rfl
      · have : ((m.a.mul m.d).sub (m.b.mul m.c)).val < 0 := by
          rcases lt_or_le (((m.a.mul m.d).sub (m.b.mul m.c)).val) 0 with hlt | hge
          · exact hlt
          · exact absurd ((Dec.nonneg_iff _).mpr hge) h4
        rw [if_pos this]
        simp only [List.getD, h4, if_false]
        rfl
    · simp [Dec.val_sub, Dec.val_mul]
  · rfl

/-- Witness for C6: the large-arc flag of a concrete arc step under the
90-degree rotation passes through unchanged. -/
theorem C6_arc_transform_witness :
    (arcStep exactFns rot90M false (Dec.ofInt 0, Dec.ofInt 0)
        (Dec.ofInt 2, Dec.ofInt 3, Dec.ofInt 10, Dec.ofInt 1, Dec.ofInt 0,
          Dec.ofInt 4, Dec.ofInt 5)).2.getD 3 (Dec.ofInt 0) = Dec.ofInt 1 := by
  obtain ⟨-, -, -, -, -, h, -⟩ := C6_arc_transform.1 exactFns rot90M false
    (Dec.ofInt 0, Dec.ofInt 0) _ (Dec.ofInt 2) (Dec.ofInt 3) (Dec.ofInt 10) (Dec.ofInt 1)
    (Dec.ofInt 0) (Dec.ofInt 4) (Dec.ofInt 5) _ rfl
  exact h

theorem digitChar_isDigit (d : Nat) : (digitChar d).isDigit = true := by
  unfold digitChar
  split <;> rfl

theorem natDigitsAux_digit (fuel : Nat) :
    ∀ (m : Nat), ∀ c ∈ natDigitsAux fuel m, c.isDigit = true := by
  induction fuel with
  | zero => intro m c hc; cases hc
  | succ fuel ih =>
    intro m c hc
    rw [natDigitsAux] at hc
    by_cases hm : m < 10
    · rw [if_pos hm, List.mem_singleton] at hc
      subst hc
      exact digitChar_isDigit m
    · rw [if_neg hm] at hc
      rcases List.mem_append.mp hc with hc | hc
      · exact ih (m / 10) c hc
      · rw [List.mem_singleton] at hc
        subst hc
        exact digitChar_isDigit _

theorem isDigit_not_ws (c : Char) (h : c.isDigit = true) : isWsChar c = false := by
  rw [Char.isDigit] at h
  rw [isWsChar]
  simp only [Bool.and_eq_true, decide_eq_true_eq] at h
  simp only [Bool.decide_or, Bool.or_eq_false_iff, decide_eq_false_iff_not]
  refine ⟨?_, ?_, ?_, ?_, ?_, ?_⟩ <;> rintro rfl <;> revert h <;> decide

theorem natStr_not_ws (m : Nat) : ∀ c ∈ natStr m, isWsChar c = false := fun c hc =>
  isDigit_not_ws c (natDigitsAux_digit _ _ c hc)

theorem intStr_not_ws (i : Int) : ∀ c ∈ intStr i, isWsChar c = false := by
  intro c hc
  unfold intStr at hc
  by_cases hi : i < 0
  · rw [if_pos hi] at hc
    rcases List.mem_cons.mp hc with rfl | hc
    · rfl
    · exact natStr_not_ws _ c hc
  · rw [if_neg hi] at hc
    exact natStr_not_ws _ c hc

theorem padZeros_not_ws (w : Nat) (cs : List Char) (hcs : ∀ c ∈ cs, isWsChar c = false) :
    ∀ c ∈ padZeros w cs, isWsChar c = false := by
  intro c hc
  rcases List.mem_append.mp hc with hc | hc
  · rw [List.eq_of_mem_replicate hc]
    rfl
  · exact hcs c hc

theorem pyRepr_props (x : Dec) : pyRepr x ≠ [] ∧ ∀ c ∈ pyRepr x, isWsChar c = false := by
  unfold pyRepr
  generalize decCanon x.k x.n x.k = p
  obtain ⟨n1, k1⟩ := p
  dsimp only
  by_cases hk : k1 = 0
  · rw [if_pos hk]
    refine ⟨by simp, ?_⟩
    intro c hc
    rcases List.mem_append.mp hc with hc | hc
    · exact intStr_not_ws _ c hc
    · rcases List.mem_cons.mp hc with rfl | hc
      · rfl
      · rcases List.mem_cons.mp hc with rfl | hc
        · rfl
        · cases hc
  · rw [if_neg hk]
    refine ⟨?_, ?_⟩
    · by_cases hn : n1 < 0 <;> simp [hn]
    · intro c hc
      rcases List.mem_append.mp hc with hc | hc
      · rcases List.mem_append.mp hc with hc | hc
        · by_cases hn : n1 < 0
          · rw [if_pos hn] at hc
            rcases List.mem_cons.mp hc with rfl | hc
            · rfl
            · cases hc
          · rw [if_neg hn] at hc
            cases hc
        · exact natStr_not_ws _ c hc
      · rcases List.mem_cons.mp hc with rfl | hc
        · rfl
        · exact padZeros_not_ws _ _ (natStr_not_ws _) c hc

theorem splitWsAux_chunk (A : List Char) (hA : ∀ c ∈ A, isWsChar c = false) :
    ∀ (rest acc : List Char), acc.reverse ++ A ≠ [] →
      splitWsAux (A ++ ' ' :: rest) acc = (acc.reverse ++ A) :: splitWsAux rest [] := by
  induction A with
  | nil =>
    intro rest acc hne
    rw [List.nil_append, splitWsAux]
    have hacc : acc.isEmpty = false := by
      cases acc with
      | nil => simp at hne
      | cons a l => rfl
    rw [if_pos (show isWsChar ' ' = true by rfl), hacc]
    simp
  | cons a A ih =>
    intro rest acc hne
    have ha : isWsChar a = false := hA a (List.mem_cons_self a A)
    rw [List.cons_append, splitWsAux, if_neg (by simp [ha])]
    rw [ih (fun c hc => hA c (List.mem_cons_of_mem a hc)) rest (a :: acc) (by simp)]
    simp

theorem splitWsAux_last (B : List Char) (hB : ∀ c ∈ B, isWsChar c = false) :
    ∀ acc : List Char, acc.reverse ++ B ≠ [] → splitWsAux B acc = [acc.reverse ++ B] := by
  induction B with
  | nil =>
    intro acc hne
    rw [splitWsAux]
    have hacc : acc.isEmpty = false := by
      cases acc with
      | nil => simp at hne
      | cons a l => rfl
    rw [hacc]
    simp
  | cons b B ih =>
    intro acc hne
    have hb : isWsChar b = false := hB b (List.mem_cons_self b B)
    rw [splitWsAux, if_neg (by simp [hb])]
    rw [ih (fun c hc => hB c (List.mem_cons_of_mem b hc)) (b :: acc) (by simp)]
    simp

/-- The viewBox string written back by the normalizer parses (when it parses
at all) with a zero origin; a parse failure falls back to the zero-origin
default. -/
theorem parse_viewbox_zero (A B : List Char)
    (hAne : A ≠ []) (hAws : ∀ c ∈ A, isWsChar c = false)
    (hBne : B ≠ []) (hBws : ∀ c ∈ B, isWsChar c = false) :
    ((parse_viewbox (some (String.mk
          ('0' :: ' ' :: '0' :: ' ' :: (A ++ ' ' :: B))))).getD defaultVB).minX.isZero = true ∧
      ((parse_viewbox (some (String.mk
          ('0' :: ' ' :: '0' :: ' ' :: (A ++ ' ' :: B))))).getD defaultVB).minY.isZero = true := by
  have hsplit : pySplitWs ('0' :: ' ' :: '0' :: ' ' :: (A ++ ' ' :: B)) =
      [['0'], ['0'], A, B] := by
    have c0 : isWsChar '0' = false := rfl
    have csp : isWsChar ' ' = true := rfl
    rw [pySplitWs, splitWsAux, if_neg (by simp [c0])]
    rw [splitWsAux, if_pos (by simp [csp])]
    rw [show (['0'] : List Char).isEmpty = false from rfl]
    rw [if_neg (by simp)]
    rw [splitWsAux, if_neg (by simp [c0])]
    rw [splitWsAux, if_pos (by simp [csp])]
    rw [show (['0'] : List Char).isEmpty = false from rfl]
    rw [if_neg (by simp)]
    rw [splitWsAux_chunk A hAws B [] (by simpa using hAne)]
    rw [splitWsAux_last B hBws [] (by simpa using hBne)]
    simp
  have key : ∀ r : Option ViewBox,
      r = parse_viewbox (some (String.mk ('0' :: ' ' :: '0' :: ' ' :: (A ++ ' ' :: B)))) →
      ((r.getD defaultVB).minX.isZero = true ∧ (r.getD defaultVB).minY.isZero = true) := by
    intro r hr
    rw [parse_viewbox] at hr
    rw [show (String.mk ('0' :: ' ' :: '0' :: ' ' :: (A ++ ' ' :: B))).data =
      ('0' :: ' ' :: '0' :: ' ' :: (A ++ ' ' :: B)) from rfl] at hr
    rw [show (('0' :: ' ' :: '0' :: ' ' :: (A ++ ' ' :: B)) : List Char).isEmpty = false
      from rfl] at hr
    rw [hsplit] at hr
    rw [if_neg (by simp : ¬ (false = true))] at hr
    dsimp only at hr
    have hlen : ¬ (([['0'], ['0'], A, B] : List (List Char)).length ≠ 4) := by simp
    simp only [if_neg hlen] at hr
    simp only [List.mapM_cons, List.mapM_nil] at hr
    rw [show pyFloat? ['0'] = some (Dec.ofInt 0) from rfl] at hr
    cases hA2 : pyFloat? A with
    | none =>
      rw [hA2] at hr
      simp at hr
      subst hr
      exact ⟨rfl, rfl⟩
    | some a =>
      rw [hA2] at hr
      cases hB2 : pyFloat? B with
      | none =>
        rw [hB2] at hr
        simp at hr
        subst hr
        exact ⟨rfl, rfl⟩
      | some b =>
        rw [hB2] at hr
        simp at hr
        subst hr
        exact ⟨rfl, rfl⟩
  exact key _ rfl

theorem applyStyle_self (sm : StyleMap) (x : Elem) (key : String)
    (hcl : trivialAttr x "class") :
    applyStyle x key (get_effective_style sm x key none) = x := by
  have hcss := get_color_none_class sm x hcl
  unfold get_effective_style
  rw [hcss]
  have hcv : (if key = "fill" then (none : Option String)
      else if key = "stroke" then none
      else if key = "stroke-width" then none else none) = none := by
    split
    · rfl
    · split
      · rfl
      · split <;> rfl
  dsimp only
  rw [hcv]
  rw [if_neg (by simp [pyTruthy])]
  cases hA : x.getA key with
  | none =>
    rw [if_neg (by simp [hA, pyTruthy])]
    rw [if_neg (by simp [pyTruthy])]
    rfl
  | some v =>
    by_cases hv : v = "none"
    · rw [if_neg (by simp [hA, hv, pyTruthy])]
      rw [if_neg (by simp [pyTruthy])]
      rfl
    · by_cases hve : v = ""
      · rw [if_neg (by simp [hA, hve, pyTruthy])]
        rw [if_neg (by simp [pyTruthy])]
        rfl
      · rw [if_pos ⟨by simp [hA, pyTruthy_true_of_ne v hve], by simp [hA, hv]⟩]
        unfold applyStyle
        dsimp only
        rw [if_neg (by simpa [String.ext_iff] using hve)]
        exact Elem.setA_self x key v hA

/-- An element satisfying the leaf invariant is re-emitted verbatim by a
second extraction. -/
theorem extract_leaves_stable (fns : MathFns) (sm : StyleMap) (x : Elem) (h : LeafInv x) :
    extract_leaves fns sm x none none none none = some [x] := by
  obtain ⟨hl, htr, hcl⟩ := h
  cases x with
  | mk tagRaw attrs txt children =>
    rw [extract_leaves]
    have hEM : (match attrGet attrs "transform" with
        | some ts => if ts.data.isEmpty = true then some identity_matrix
            else parse_transform_string fns ts.data
        | none => some identity_matrix) = some identity_matrix := by
      rcases htr with ht | ht
      · rw [show attrGet attrs "transform" = none from ht]
      · rw [show attrGet attrs "transform" = some "" from ht]
        rfl
    rw [hEM]
    dsimp only
    have hg : ¬ localTag tagRaw = "g" := by
      intro hgg
      rw [show (Elem.mk tagRaw attrs txt children).tag = tagRaw from rfl, hgg] at hl
      exact absurd hl (by decide)
    rw [if_neg hg, if_pos (by exact hl)]
    rw [if_neg (by decide : ¬ (¬ isIdentityM identity_matrix = true))]
    rw [delTruthy_of_trivial _ _ htr]
    dsimp only
    rw [applyStyle_self sm _ "fill" hcl]
    rw [applyStyle_self sm _ "stroke" hcl]
    rw [applyStyle_self sm _ "stroke-width" hcl]
    rw [delTruthy_of_trivial _ _ hcl]

theorem extract_leaves_list_stable (fns : MathFns) (sm : StyleMap) :
    ∀ cs : ElemList, (∀ c ∈ cs.toList, LeafInv c) →
      extract_leaves_list fns sm cs none none none none = some cs.toList
  | .nil, _ => rfl
  | .cons c cs, h => by
    rw [extract_leaves_list]
    rw [extract_leaves_stable fns sm c (h c (List.mem_cons_self _ _))]
    rw [extract_leaves_list_stable fns sm cs
      (fun x hx => h x (List.mem_cons_of_mem _ hx))]
    rfl

theorem Elem.withChildren_children (e : Elem) : e.withChildren e.children = e := by
  cases e; rfl

theorem flatten_groups_stable (fns : MathFns) (root : Elem) (sm : StyleMap)
    (h : ∀ c ∈ root.childList, LeafInv c) : flatten_groups fns root sm = some root := by
  unfold flatten_groups
  rw [extract_leaves_list_stable fns sm root.children h]
  dsimp only
  rw [show ElemList.ofList root.children.toList = root.children from
    ElemList.ofList_toList root.children]
  rw [Elem.withChildren_children]

theorem applyOffsetSubtree_inv (fns : MathFns) (m : SvgMatrix) (c c1 : Elem)
    (hc : LeafInv c) (h : applyOffsetSubtree fns m c = some c1) : LeafInv c1 := by
  obtain ⟨hl, htr, hcl⟩ := hc
  cases c with
  | mk t a tx cs =>
    rw [applyOffsetSubtree] at h
    rw [if_pos (by exact hl)] at h
    generalize hB : apply_matrix_to_element fns (Elem.mk t a tx cs) m = b at h
    cases b with
    | none => cases h
    | some e1 =>
      obtain ⟨ht1, _, htr1, hcl1⟩ := apply_matrix_pres fns _ _ _ hB
      generalize hL : applyOffsetSubtreeList fns m cs = r at h
      cases r with
      | none => cases h
      | some cs1 =>
        rw [Option.some.injEq] at h
        subst h
        refine ⟨?_, ?_, ?_⟩
        · rw [Elem.tag_withChildren, ht1]
          exact hl
        · rw [trivialAttr, Elem.getA_withChildren]
          exact htr1
        · rw [trivialAttr, Elem.getA_withChildren, hcl1]
          exact hcl

theorem applyOffsetSubtreeList_inv (fns : MathFns) (m : SvgMatrix) :
    ∀ (cs cs1 : ElemList), applyOffsetSubtreeList fns m cs = some cs1 →
      (∀ c ∈ cs.toList, LeafInv c) → ∀ c1 ∈ cs1.toList, LeafInv c1
  | .nil, cs1, h, _ => by
    rw [applyOffsetSubtreeList, Option.some.injEq] at h
    subst h
    intro c1 hc1
    cases hc1
  | .cons c cs, cs1, h, hinv => by
    rw [applyOffsetSubtreeList] at h
    generalize h1 : applyOffsetSubtree fns m c = r1 at h
    cases r1 with
    | none => cases h
    | some c1' =>
      generalize h2 : applyOffsetSubtreeList fns m cs = r2 at h
      cases r2 with
      | none => cases h
      | some cs1' =>
        rw [Option.some.injEq] at h
        subst h
        intro x hx
        rcases List.mem_cons.mp hx with rfl | hx
        · exact applyOffsetSubtree_inv fns m c x (hinv c (List.mem_cons_self _ _)) h1
        · exact applyOffsetSubtreeList_inv fns m cs cs1' h2
            (fun y hy => hinv y (List.mem_cons_of_mem _ hy)) x hx

/-- A tree whose children all satisfy the leaf invariant and whose viewBox
parses with a zero origin passes through `mainPass` with its children
untouched. -/
theorem mainPass_second (fns : MathFns) (t' : Elem)
    (hinv : ∀ c ∈ t'.childList, LeafInv c)
    (hvb : ((parse_viewbox (t'.getA "viewBox")).getD defaultVB).minX.isZero = true ∧
      ((parse_viewbox (t'.getA "viewBox")).getD defaultVB).minY.isZero = true) :
    (mainPass fns t').map Elem.childList = some t'.childList := by
  unfold mainPass
  dsimp only
  have hch : ((t'.setA "width" (String.mk (pyRepr
        ((parse_viewbox (t'.getA "viewBox")).getD defaultVB).width))).setA "height"
        (String.mk (pyRepr ((parse_viewbox (t'.getA "viewBox")).getD
          defaultVB).height))).childList = t'.childList := by
    rw [Elem.childList, Elem.childList, Elem.children_setA, Elem.children_setA]
  rw [flatten_groups_stable fns _ (parse_css_styles t') (by rw [hch]; exact hinv)]
  dsimp only
  rw [if_neg (by simp [hvb.1, hvb.2])]
  rw [Option.map_some']
  rw [hch]

/-- Claim C9: the flattening-plus-viewBox-normalization pass is idempotent on
element geometry — when the full pass succeeds on an input, running it again
on its own output succeeds and reproduces the output's element list (every
element subtree, attribute for attribute) unchanged: the second pass finds
no transforms, no groups, no classes and a zero viewBox origin, and so
rewrites nothing. -/
theorem C9_pass_idempotent (fns : MathFns) (t t' : Elem) (h : mainPass fns t = some t') :
    (mainPass fns t').map Elem.childList = some t'.childList := by
  unfold mainPass at h
  dsimp only at h
  generalize hvbEq : (parse_viewbox (t.getA "viewBox")).getD defaultVB = vb at h
  generalize hF : flatten_groups fns ((t.setA "width" (String.mk (pyRepr vb.width))).setA
    "height" (String.mk (pyRepr vb.height))) (parse_css_styles t) = r at h
  cases r with
  | none => cases h
  | some root2 =>
    dsimp only at h
    have hinv2 := flatten_groups_inv fns _ _ root2 hF
    obtain ⟨leaves, hL, hcl, hattr⟩ := flatten_groups_children fns _ _ root2 hF
    have hvb2 : root2.getA "viewBox" = t.getA "viewBox" := by
      rw [hattr "viewBox", Elem.getA_setA_ne _ _ _ _ (by decide),
        Elem.getA_setA_ne _ _ _ _ (by decide)]
    by_cases hz : vb.minX.isZero = true ∧ vb.minY.isZero = true
    · rw [if_neg (by simp [hz.1, hz.2])] at h
      rw [Option.some.injEq] at h
      subst h
      exact mainPass_second fns root2 hinv2 (by rw [hvb2, hvbEq]; exact hz)
    · rw [if_pos (by simpa using hz)] at h
      unfold normalize_viewbox_offset at h
      rw [if_neg (by simpa using hz)] at h
      dsimp only at h
      generalize hO : applyOffsetSubtreeList fns
        ⟨Dec.ofInt 1, Dec.ofInt 0, Dec.ofInt 0, Dec.ofInt 1, vb.minX.neg, vb.minY.neg⟩
        root2.children = ro at h
      cases ro with
      | none => cases h
      | some cs1 =>
        rw [Option.some.injEq] at h
        subst h
        have hinvT : ∀ c ∈ ((root2.withChildren cs1).setA "viewBox"
            (String.mk ('0' :: ' ' :: '0' :: ' ' :: pyRepr vb.width ++
              ' ' :: pyRepr vb.height))).childList, LeafInv c := by
          intro c hc
          rw [Elem.childList, Elem.children_setA, Elem.children_withChildren] at hc
          exact applyOffsetSubtreeList_inv fns _ root2.children cs1 hO hinv2 c hc
        have hvbT := parse_viewbox_zero (pyRepr vb.width) (pyRepr vb.height)
          (pyRepr_props vb.width).1 (pyRepr_props vb.width).2
          (pyRepr_props vb.height).1 (pyRepr_props vb.height).2
        refine mainPass_second fns _ hinvT ?_
        rw [Elem.getA_setA_self]
        exact hvbT

/-- Witness for C9: the idempotence theorem at a concrete input with a
nonzero viewBox origin (so the first pass really bakes an offset). -/
theorem C9_pass_idempotent_witness :
    mainPass exactFns c9root = some (Elem.mk "svg"
        [("viewBox", "0 0 100.0 100.0"), ("width", "100.0"), ("height", "100.0")] none
        (.cons (.mk "path" [("d", "M0.000000 0.000000")] none .nil) .nil)) ∧
      (mainPass exactFns (Elem.mk "svg"
          [("viewBox", "0 0 100.0 100.0"), ("width", "100.0"), ("height", "100.0")] none
          (.cons (.mk "path" [("d", "M0.000000 0.000000")] none .nil) .nil))).map
          Elem.childList =
        some (Elem.mk "svg"
          [("viewBox", "0 0 100.0 100.0"), ("width", "100.0"), ("height", "100.0")] none
          (.cons (.mk "path" [("d", "M0.000000 0.000000")] none .nil) .nil)).childList := by
  refine ⟨by rfl, ?_⟩
  exact C9_pass_idempotent exactFns c9root _ (by rfl)
